import Mathlib

/-!
# Cyber Management System: record store and its text persistence

A shallow embedding of `src/main.cpp`.  Strings and file contents are lists of
characters, `int` is a 32-bit two's-complement integer carried in `Int`, the two
persistence files are optional character lists (`none` = the file does not
exist), and an uncaught `std::stoi` exception is the `error` case of `Except`.
-/

namespace CMS

/-! ## Machine integers -/

/-- Largest value of a C++ `int` (32 bits). -/
def INT_MAX : Int := 2147483647

/-- Smallest value of a C++ `int` (32 bits). -/
def INT_MIN : Int := -2147483648

/-- Reduction of a mathematical integer to the 32-bit two's-complement range:
the value an `int` holds after `++` or `+ 1` when the exact result does not fit. -/
def wrapInt (x : Int) : Int := (x + 2147483648) % 4294967296 - 2147483648

/-! ## Data model (`struct User`, `struct Device`, `class CyberManagementSystem`) -/

/-- Record `struct User`. -/
structure User where
  id : Int
  username : List Char
  role : List Char
  deriving DecidableEq

/-- Record `struct Device`. -/
structure Device where
  id : Int
  name : List Char
  ip : List Char
  status : List Char
  deriving DecidableEq

/-- The data members of `class CyberManagementSystem`. -/
structure CyberManagementSystem where
  users : List User
  devices : List Device
  userIdCounter : Int
  deviceIdCounter : Int
  deriving DecidableEq

/-- The state given by the default member initialisers, before the constructor
body runs: both vectors empty, both counters `1`. -/
def initial : CyberManagementSystem :=
  { users := [], devices := [], userIdCounter := 1, deviceIdCounter := 1 }

/-! ## Library behaviour used by the program -/

/-- The exceptions `std::stoi` can throw. -/
inductive StoiError where
  | invalid_argument
  | out_of_range
  deriving DecidableEq

deriving instance DecidableEq for Except

/-- Whitespace in the "C" locale (`std::isspace`), skipped by `strtol`. -/
def isspace (c : Char) : Bool :=
  c = ' ' || c = '\t' || c = '\n' || c = '\x0b' || c = '\x0c' || c = '\r'

/-- Value of a decimal digit character. -/
def digitVal (c : Char) : Int := (c.toNat - 48 : Nat)

/-- Accumulation of a run of decimal digits, most significant first. -/
def digitsValue (ds : List Char) : Int :=
  ds.foldl (fun acc d => acc * 10 + digitVal d) 0

/-- The optional sign read by `strtol` after the whitespace: whether the number
is negated, and the characters after the sign. -/
def readSign : List Char → Bool × List Char
  | '-' :: r => (true, r)
  | '+' :: r => (false, r)
  | s => (false, s)

/-- Function `std::stoi(str)` in base 10: leading whitespace is skipped, one
optional sign is read, then the longest run of decimal digits; what follows the
digits is ignored.  No digit gives `invalid_argument`; a value outside the range
of `int` gives `out_of_range`. -/
def stoi (str : List Char) : Except StoiError Int :=
  let signed := readSign (str.dropWhile isspace)
  let ds := signed.2.takeWhile Char.isDigit
  if ds = [] then .error .invalid_argument
  else
    let v := if signed.1 then - digitsValue ds else digitsValue ds
    if INT_MIN ≤ v ∧ v ≤ INT_MAX then .ok v else .error .out_of_range

/-- Text written by `stream << n` for an `int`: a minus sign for a negative
value, then the decimal digits without leading zeros. -/
def intToChars (n : Int) : List Char :=
  if n < 0 then '-' :: Nat.toDigits 10 n.natAbs else Nat.toDigits 10 n.natAbs

/-- An input stream (`std::ifstream`, `std::stringstream`): the characters not
yet read and the two state bits the program depends on. -/
structure IStream where
  buf : List Char
  eofbit : Bool
  failbit : Bool
  deriving DecidableEq

/-- A stream freshly opened on the given characters. -/
def IStream.open (cs : List Char) : IStream :=
  { buf := cs, eofbit := false, failbit := false }

/-- Characters up to the first occurrence of `delim`, and what follows that
occurrence (`none` when the end is reached without meeting `delim`). -/
def takeUntil (delim : Char) : List Char → List Char × Option (List Char)
  | [] => ([], none)
  | c :: cs =>
    if c = delim then ([], some cs)
    else (c :: (takeUntil delim cs).1, (takeUntil delim cs).2)

/-- Function `std::getline(is, str, delim)`: when the stream is not good the
call sets `failbit` and extracts nothing; otherwise characters are extracted up
to `delim` (extracted and discarded) or to the end of input (`eofbit`), and
`failbit` is set when nothing at all was extracted. -/
def getline (is : IStream) (delim : Char) : IStream × List Char :=
  if is.eofbit || is.failbit then ({ is with failbit := true }, [])
  else
    match takeUntil delim is.buf with
    | (str, some rest) => ({ buf := rest, eofbit := false, failbit := false }, str)
    | (str, none) => ({ buf := [], eofbit := true, failbit := str.isEmpty }, str)

/-- The successive values of `line` in `while (getline(file, line))`: the text
between newlines, where a final piece without newline counts when non-empty. -/
def fileLines : List Char → List (List Char)
  | [] => []
  | c :: cs =>
    if c = '\n' then [] :: fileLines cs
    else
      match fileLines cs with
      | [] => [[c]]
      | l :: ls => (c :: l) :: ls

/-! ## Operations of the record store -/

/-- Method `addUser`: `push_back` of the record made of `userIdCounter++`, the
username and the role. -/
def addUser (s : CyberManagementSystem) (username role : List Char) :
    CyberManagementSystem :=
  { s with
    users := s.users ++ [{ id := s.userIdCounter, username := username, role := role }]
    userIdCounter := wrapInt (s.userIdCounter + 1) }

/-- Method `addDevice`: `push_back` of the record made of `deviceIdCounter++`, the
name, the ip and the status. -/
def addDevice (s : CyberManagementSystem) (name ip status : List Char) :
    CyberManagementSystem :=
  { s with
    devices := s.devices ++
      [{ id := s.deviceIdCounter, name := name, ip := ip, status := status }]
    deviceIdCounter := wrapInt (s.deviceIdCounter + 1) }

/-- Body of the loop of `saveUsers`: one `file << ...` statement. -/
def writeUser (file : List Char) (user : User) : List Char :=
  file ++ intToChars user.id ++ ",".toList ++ user.username ++ ",".toList ++ user.role
    ++ "\n".toList

/-- Opening `std::ofstream file(name)`: the file is created or truncated, so
whatever it held before (`none`: it did not exist) is gone. -/
def ofstreamOpen (_previous : Option (List Char)) : List Char := []

/-- Method `saveUsers`: the content of `users.txt` after the call, given what the
file held before. -/
def saveUsers (s : CyberManagementSystem) (previous : Option (List Char)) : List Char :=
  s.users.foldl writeUser (ofstreamOpen previous)

/-- Body of the loop of `saveDevices`: one `file << ...` statement. -/
def writeDevice (file : List Char) (device : Device) : List Char :=
  file ++ intToChars device.id ++ ",".toList ++ device.name ++ ",".toList ++ device.ip
    ++ ",".toList ++ device.status ++ "\n".toList

/-- Method `saveDevices`: the content of `devices.txt` after the call, given what
the file held before. -/
def saveDevices (s : CyberManagementSystem) (previous : Option (List Char)) : List Char :=
  s.devices.foldl writeDevice (ofstreamOpen previous)

/-- The condition `getline(ss, idStr, ',') && getline(ss, username, ',') &&
getline(ss, role)` of `loadUsers` on `std::stringstream ss(line)`: the three
extracted strings when all three calls succeed. -/
def splitUserLine (line : List Char) : Option (List Char × List Char × List Char) :=
  let r1 := getline (IStream.open line) ','
  if r1.1.failbit then none
  else
    let r2 := getline r1.1 ','
    if r2.1.failbit then none
    else
      let r3 := getline r2.1 '\n'
      if r3.1.failbit then none else some (r1.2, r2.2, r3.2)

/-- The condition of `loadDevices`: four `getline` calls joined by `&&`. -/
def splitDeviceLine (line : List Char) :
    Option (List Char × List Char × List Char × List Char) :=
  let r1 := getline (IStream.open line) ','
  if r1.1.failbit then none
  else
    let r2 := getline r1.1 ','
    if r2.1.failbit then none
    else
      let r3 := getline r2.1 ','
      if r3.1.failbit then none
      else
        let r4 := getline r3.1 '\n'
        if r4.1.failbit then none else some (r1.2, r2.2, r3.2, r4.2)

/-- One iteration of the loop of `loadUsers` on the line just read. -/
def loadUserLine (s : CyberManagementSystem) (line : List Char) :
    Except StoiError CyberManagementSystem :=
  match splitUserLine line with
  | none => .ok s
  | some (idStr, username, role) =>
    match stoi idStr with
    | .error e => .error e
    | .ok id =>
      .ok { s with
        users := s.users ++ [{ id := id, username := username, role := role }]
        userIdCounter := if id ≥ s.userIdCounter then wrapInt (id + 1) else s.userIdCounter }

/-- One iteration of the loop of `loadDevices` on the line just read. -/
def loadDeviceLine (s : CyberManagementSystem) (line : List Char) :
    Except StoiError CyberManagementSystem :=
  match splitDeviceLine line with
  | none => .ok s
  | some (idStr, name, ip, status) =>
    match stoi idStr with
    | .error e => .error e
    | .ok id =>
      .ok { s with
        devices := s.devices ++ [{ id := id, name := name, ip := ip, status := status }]
        deviceIdCounter :=
          if id ≥ s.deviceIdCounter then wrapInt (id + 1) else s.deviceIdCounter }

/-- The `while (getline(file, line))` loop: the body runs on each line in turn
and stops at the first exception. -/
def loadLoop (body : CyberManagementSystem → List Char → Except StoiError CyberManagementSystem) :
    CyberManagementSystem → List (List Char) → Except StoiError CyberManagementSystem
  | s, [] => .ok s
  | s, line :: rest =>
    match body s line with
    | .error e => .error e
    | .ok s1 => loadLoop body s1 rest

/-- Method `loadUsers` on the content of `users.txt` (`none`: the file cannot be
opened, the method returns at once). -/
def loadUsers (file : Option (List Char)) (s : CyberManagementSystem) :
    Except StoiError CyberManagementSystem :=
  match file with
  | none => .ok s
  | some content => loadLoop loadUserLine s (fileLines content)

/-- Method `loadDevices` on the content of `devices.txt`. -/
def loadDevices (file : Option (List Char)) (s : CyberManagementSystem) :
    Except StoiError CyberManagementSystem :=
  match file with
  | none => .ok s
  | some content => loadLoop loadDeviceLine s (fileLines content)

/-- The constructor: `loadUsers(); loadDevices();` on the default-initialised
members. -/
def construct (usersFile devicesFile : Option (List Char)) :
    Except StoiError CyberManagementSystem :=
  match loadUsers usersFile initial with
  | .error e => .error e
  | .ok s => loadDevices devicesFile s

/-- One `std::cout << ...` statement of the loop of `listUsers`; the console
output is kept as the list of texts written, one per statement. -/
def printUser (out : List (List Char)) (user : User) : List (List Char) :=
  out ++ ["ID: ".toList ++ intToChars user.id ++ ", Username: ".toList ++ user.username
    ++ ", Role: ".toList ++ user.role ++ ['\n']]

/-- Method `listUsers`: the texts written to `std::cout`, one per statement. -/
def listUsers (s : CyberManagementSystem) : List (List Char) :=
  let out := s.users.foldl printUser ["\nUsers:\n".toList]
  if s.users.isEmpty then out ++ ["No users available.\n".toList] else out

/-- One `std::cout << ...` statement of the loop of `listDevices`. -/
def printDevice (out : List (List Char)) (device : Device) : List (List Char) :=
  out ++ ["ID: ".toList ++ intToChars device.id ++ ", Name: ".toList ++ device.name
    ++ ", IP: ".toList ++ device.ip ++ ", Status: ".toList ++ device.status ++ ['\n']]

/-- Method `listDevices`: the texts written to `std::cout`, one per statement. -/
def listDevices (s : CyberManagementSystem) : List (List Char) :=
  let out := s.devices.foldl printDevice ["\nDevices:\n".toList]
  if s.devices.isEmpty then out ++ ["No devices available.\n".toList] else out

/-! ## Sessions: sequences of calls of the public methods -/

/-- A call of one of the four public record-store methods. -/
inductive Op where
  | addUser (username role : List Char)
  | listUsers
  | addDevice (name ip status : List Char)
  | listDevices
  deriving DecidableEq

/-- Effect of one call on the data members (the list methods only print). -/
def applyOp (s : CyberManagementSystem) : Op → CyberManagementSystem
  | .addUser username role => addUser s username role
  | .listUsers => s
  | .addDevice name ip status => addDevice s name ip status
  | .listDevices => s

/-- Effect of a sequence of calls, first call first. -/
def runOps (s : CyberManagementSystem) (ops : List Op) : CyberManagementSystem :=
  ops.foldl applyOp s

/-- Number of `addUser` calls in a sequence. -/
def countAddUser : List Op → Nat
  | [] => 0
  | .addUser _ _ :: ops => countAddUser ops + 1
  | _ :: ops => countAddUser ops

/-- Number of `addDevice` calls in a sequence. -/
def countAddDevice : List Op → Nat
  | [] => 0
  | .addDevice _ _ _ :: ops => countAddDevice ops + 1
  | _ :: ops => countAddDevice ops

/-- Whether a call is `addUser`. -/
def isAddUser : Op → Bool
  | .addUser _ _ => true
  | _ => false

/-- Whether a call is `addDevice`. -/
def isAddDevice : Op → Bool
  | .addDevice _ _ _ => true
  | _ => false

/-! ## The interactive shell (`menu`, `main`) -/

/-- The two states of the shell: inside the `while (true)` loop of `menu`, or
past its `break`. -/
inductive ShellState where
  | RUNNING
  | TERMINATED
  deriving DecidableEq

/-- The shell: the record store, the texts written to `std::cout` so far (one
per statement) and the control state. -/
structure Shell where
  store : CyberManagementSystem
  out : List (List Char)
  state : ShellState
  deriving DecidableEq

/-- What one pass of the loop reads from `std::cin`: the integer that `choice`
holds after `std::cin >> choice`, and the lines that the calls of
`std::getline(std::cin, ...)` of this pass return, in order (a pass uses as many
of them as it has fields to read). -/
structure Entry where
  choice : Int
  first : List Char
  second : List Char
  third : List Char
  deriving DecidableEq

/-- The seven statements that display the options. -/
def menuText : List (List Char) :=
  ["\n=== Cyber Management System Menu ===\n".toList, "1. Add User\n".toList,
    "2. List Users\n".toList, "3. Add Device\n".toList, "4. List Devices\n".toList,
    "5. Exit\n".toList, "Choose an option: ".toList]

/-- One pass of the `while (true)` loop of `menu`: the options are displayed, the
selection is read and dispatched.  The texts `User added successfully.` and
`Device added successfully.` are the ones `addUser` and `addDevice` write. -/
def menuStep (sh : Shell) (e : Entry) : Shell :=
  let out := sh.out ++ menuText
  if e.choice = 1 then
    { store := addUser sh.store e.first e.second
      out := out ++ ["Enter username: ".toList, "Enter role: ".toList,
        "User added successfully.\n".toList]
      state := .RUNNING }
  else if e.choice = 2 then
    { store := sh.store, out := out ++ listUsers sh.store, state := .RUNNING }
  else if e.choice = 3 then
    { store := addDevice sh.store e.first e.second e.third
      out := out ++ ["Enter device name: ".toList, "Enter IP address: ".toList,
        "Enter status (active/inactive): ".toList, "Device added successfully.\n".toList]
      state := .RUNNING }
  else if e.choice = 4 then
    { store := sh.store, out := out ++ listDevices sh.store, state := .RUNNING }
  else if e.choice = 5 then
    { store := sh.store, out := out ++ ["Exiting system...\n".toList], state := .TERMINATED }
  else
    { store := sh.store, out := out ++ ["Invalid option, try again.\n".toList],
      state := .RUNNING }

/-- Method `menu` on the entries the operator makes: passes of the loop are taken
until one of them breaks out of it. -/
def menu : Shell → List Entry → Shell
  | sh, [] => sh
  | sh, e :: es =>
    match sh.state with
    | .TERMINATED => sh
    | .RUNNING => menu (menuStep sh e) es

/-- The two persistence files, `users.txt` and `devices.txt` (`none`: absent). -/
structure Files where
  usersFile : Option (List Char)
  devicesFile : Option (List Char)
  deriving DecidableEq

/-- The destructor: `saveUsers(); saveDevices();`. -/
def destruct (s : CyberManagementSystem) (files : Files) : Files :=
  { usersFile := some (saveUsers s files.usersFile)
    devicesFile := some (saveDevices s files.devicesFile) }

/-- Function `main`: the system is constructed from the files, the menu runs on
the operator's entries, and when the menu returns the destructor writes the
files.  The result is the shell as the entries leave it and the files; as long
as the menu has not returned the files are as they were. -/
def main (files : Files) (entries : List Entry) : Except StoiError (Shell × Files) :=
  match construct files.usersFile files.devicesFile with
  | .error e => .error e
  | .ok s =>
    let sh := menu { store := s, out := [], state := .RUNNING } entries
    match sh.state with
    | .TERMINATED => .ok (sh, destruct sh.store files)
    | .RUNNING => .ok (sh, files)

/-! ## Vocabulary of the specification -/

/-- A value that a C++ `int` can hold. -/
def IsInt (x : Int) : Prop := INT_MIN ≤ x ∧ x ≤ INT_MAX

instance (x : Int) : Decidable (IsInt x) := by unfold IsInt; infer_instance

/-- A field free of the two characters the file format gives a meaning to. -/
def Plain (field : List Char) : Prop := ',' ∉ field ∧ '\n' ∉ field

instance (field : List Char) : Decidable (Plain field) := by unfold Plain; infer_instance

/-- Delimited line of a user, as the specification words it: `id,username,role`. -/
def userLine (u : User) : List Char :=
  intToChars u.id ++ ',' :: (u.username ++ ',' :: u.role)

/-- Delimited line of a device: `id,name,ip,status`. -/
def deviceLine (d : Device) : List Char :=
  intToChars d.id ++ ',' :: (d.name ++ ',' :: (d.ip ++ ',' :: d.status))

/-- Row shown for a user by the listing: `ID: <id>, Username: <username>, Role: <role>`. -/
def userRow (u : User) : List Char :=
  "ID: ".toList ++ intToChars u.id ++ ", Username: ".toList ++ u.username
    ++ ", Role: ".toList ++ u.role

/-- Row shown for a device: `ID: <id>, Name: <name>, IP: <ip>, Status: <status>`. -/
def deviceRow (d : Device) : List Char :=
  "ID: ".toList ++ intToChars d.id ++ ", Name: ".toList ++ d.name
    ++ ", IP: ".toList ++ d.ip ++ ", Status: ".toList ++ d.status

/-- A well-formed line of the users file for the record it denotes: exactly three
comma-delimited fields `id,username,role`, the id field read by `std::stoi` as the
id, and a last field that is not empty. -/
def WellFormedUserLine (line : List Char) (u : User) : Prop :=
  ∃ i, line = i ++ ',' :: (u.username ++ ',' :: u.role) ∧ ',' ∉ i ∧ ',' ∉ u.username ∧
    ',' ∉ u.role ∧ u.role ≠ [] ∧ stoi i = .ok u.id

/-- A well-formed line of the devices file for the record it denotes: exactly
four comma-delimited fields `id,name,ip,status`. -/
def WellFormedDeviceLine (line : List Char) (d : Device) : Prop :=
  ∃ i, line = i ++ ',' :: (d.name ++ ',' :: (d.ip ++ ',' :: d.status)) ∧ ',' ∉ i ∧
    ',' ∉ d.name ∧ ',' ∉ d.ip ∧ ',' ∉ d.status ∧ d.status ≠ [] ∧ stoi i = .ok d.id

/-- The counter update `if (id >= counter) counter = id + 1;`. -/
def bumpCounter (counter id : Int) : Int :=
  if id ≥ counter then wrapInt (id + 1) else counter

/-- The largest of `floor` and the successors of the given ids:
`max(floor, max(ids) + 1)`. -/
def nextIdAfter (floor : Int) (ids : List Int) : Int :=
  ids.foldl (fun m i => max m (i + 1)) floor

/-- The text of a line before its first comma (the whole line when it has none). -/
def beforeComma (line : List Char) : List Char :=
  line.takeWhile (fun c => c != ',')

/-- The text of a line after its first comma (empty when it has none). -/
def afterComma (line : List Char) : List Char :=
  (line.dropWhile (fun c => c != ',')).drop 1

/-! ## Streams and lines -/

theorem takeUntil_append_delim (d : Char) (l rest : List Char) (h : d ∉ l) :
    takeUntil d (l ++ d :: rest) = (l, some rest) := by
  induction l with
  | nil => simp [takeUntil]
  | cons c cs ih =>
    have hc : c ≠ d := fun e => h (by simp [e])
    have hcs : d ∉ cs := fun e => h (by simp [e])
    simp [takeUntil, hc, ih hcs]

theorem takeUntil_no_delim (d : Char) (l : List Char) (h : d ∉ l) :
    takeUntil d l = (l, none) := by
  induction l with
  | nil => simp [takeUntil]
  | cons c cs ih =>
    have hc : c ≠ d := fun e => h (by simp [e])
    have hcs : d ∉ cs := fun e => h (by simp [e])
    simp [takeUntil, hc, ih hcs]

/-- What `takeUntil` returns, read backwards: the input is the extracted text,
free of the delimiter, followed by the delimiter and the rest when there is one. -/
theorem takeUntil_spec (d : Char) (l : List Char) :
    d ∉ (takeUntil d l).1 ∧
    (∀ rest, (takeUntil d l).2 = some rest → l = (takeUntil d l).1 ++ d :: rest) ∧
    ((takeUntil d l).2 = none → l = (takeUntil d l).1) := by
  induction l with
  | nil => simp [takeUntil]
  | cons c cs ih =>
    by_cases hc : c = d
    · subst hc; simp [takeUntil]
    · obtain ⟨h1, h2, h3⟩ := ih
      simp only [takeUntil, hc, if_false]
      refine ⟨?_, ?_, ?_⟩
      · simp [h1, Ne.symm hc]
      · intro rest hr
        have := h2 rest hr
        simp [← this]
      · intro hn
        have := h3 hn
        simp [← this]

/-- The loop `while (getline(file, line))` unfolded once, in terms of what one
`getline` extracts from the unread characters. -/
theorem fileLines_step (cs : List Char) :
    fileLines cs =
      match takeUntil '\n' cs with
      | (l, some rest) => l :: fileLines rest
      | (l, none) => if l = [] then [] else [l] := by
  induction cs with
  | nil => simp [fileLines, takeUntil]
  | cons c cs ih =>
    by_cases hc : c = '\n'
    · simp [fileLines, takeUntil, hc]
    · simp only [fileLines, takeUntil, hc, if_false]
      rw [ih]
      rcases h : takeUntil '\n' cs with ⟨l, _ | rest⟩ <;> simp
      by_cases hl : l = [] <;> simp [hl]

theorem fileLines_line (l rest : List Char) (h : '\n' ∉ l) :
    fileLines (l ++ '\n' :: rest) = l :: fileLines rest := by
  rw [fileLines_step, takeUntil_append_delim _ _ _ h]

theorem fileLines_last (l : List Char) (h : '\n' ∉ l) :
    fileLines l = if l = [] then [] else [l] := by
  rw [fileLines_step, takeUntil_no_delim _ _ h]


/-- The three `getline` calls of `loadUsers` in terms of `takeUntil`. -/
theorem splitUserLine_eq (line : List Char) :
    splitUserLine line =
      match takeUntil ',' line with
      | (_, none) => none
      | (a, some r1) =>
        match takeUntil ',' r1 with
        | (_, none) => none
        | (b, some r2) =>
          match takeUntil '\n' r2 with
          | (c, some _) => some (a, b, c)
          | (c, none) => if c = [] then none else some (a, b, c) := by
  unfold splitUserLine
  rcases h1 : takeUntil ',' line with ⟨a, _ | r1⟩
  · by_cases ha : a = [] <;> simp [getline, IStream.open, h1, ha]
  · rcases h2 : takeUntil ',' r1 with ⟨b, _ | r2⟩
    · by_cases hb : b = [] <;> simp [getline, IStream.open, h1, h2, hb]
    · rcases h3 : takeUntil '\n' r2 with ⟨c, _ | r3⟩
      · by_cases hc : c = [] <;> simp [getline, IStream.open, h1, h2, h3, hc]
      · simp [getline, IStream.open, h1, h2, h3]

theorem splitDeviceLine_eq (line : List Char) :
    splitDeviceLine line =
      match takeUntil ',' line with
      | (_, none) => none
      | (a, some r1) =>
        match takeUntil ',' r1 with
        | (_, none) => none
        | (b, some r2) =>
          match takeUntil ',' r2 with
          | (_, none) => none
          | (c, some r3) =>
            match takeUntil '\n' r3 with
            | (d, some _) => some (a, b, c, d)
            | (d, none) => if d = [] then none else some (a, b, c, d) := by
  unfold splitDeviceLine
  rcases h1 : takeUntil ',' line with ⟨a, _ | r1⟩
  · by_cases ha : a = [] <;> simp [getline, IStream.open, h1, ha]
  · rcases h2 : takeUntil ',' r1 with ⟨b, _ | r2⟩
    · by_cases hb : b = [] <;> simp [getline, IStream.open, h1, h2, hb]
    · rcases h3 : takeUntil ',' r2 with ⟨c, _ | r3⟩
      · by_cases hc : c = [] <;> simp [getline, IStream.open, h1, h2, h3, hc]
      · rcases h4 : takeUntil '\n' r3 with ⟨d, _ | r4⟩
        · by_cases hd : d = [] <;> simp [getline, IStream.open, h1, h2, h3, h4, hd]
        · simp [getline, IStream.open, h1, h2, h3, h4]

/-- A line built from three fields is split back into them. -/
theorem splitUserLine_fields (a b c : List Char) (ha : ',' ∉ a) (hb : ',' ∉ b)
    (hc : c ≠ []) (hn : '\n' ∉ c) :
    splitUserLine (a ++ ',' :: (b ++ ',' :: c)) = some (a, b, c) := by
  rw [splitUserLine_eq, takeUntil_append_delim _ _ _ ha]
  simp only
  rw [takeUntil_append_delim _ _ _ hb]
  simp only
  rw [takeUntil_no_delim _ _ hn]
  simp [hc]

theorem splitDeviceLine_fields (a b c d : List Char) (ha : ',' ∉ a) (hb : ',' ∉ b)
    (hc : ',' ∉ c) (hd : d ≠ []) (hn : '\n' ∉ d) :
    splitDeviceLine (a ++ ',' :: (b ++ ',' :: (c ++ ',' :: d))) = some (a, b, c, d) := by
  rw [splitDeviceLine_eq, takeUntil_append_delim _ _ _ ha]
  simp only
  rw [takeUntil_append_delim _ _ _ hb]
  simp only
  rw [takeUntil_append_delim _ _ _ hc]
  simp only
  rw [takeUntil_no_delim _ _ hn]
  simp [hd]

/-! ## Decimal text of an `int` -/

theorem digitChar_spec (k : Nat) (h : k < 10) :
    (Nat.digitChar k).isDigit = true ∧ digitVal (Nat.digitChar k) = k := by
  interval_cases k <;> decide

theorem digitsValue_snoc (l : List Char) (c : Char) :
    digitsValue (l ++ [c]) = digitsValue l * 10 + digitVal c := by
  simp [digitsValue, List.foldl_append]

/-- The digits produced for `n` are decimal digit characters whose value is `n`. -/
theorem toDigitsCore_spec (fuel : Nat) : ∀ (n : Nat) (ds : List Char), n < fuel →
    ∃ l, Nat.toDigitsCore 10 fuel n ds = l ++ ds ∧ l ≠ [] ∧
      (∀ c ∈ l, c.isDigit = true) ∧ digitsValue l = n := by
  induction fuel with
  | zero => intro n ds h; omega
  | succ fuel ih =>
    intro n ds h
    obtain ⟨hd, hv⟩ := digitChar_spec (n % 10) (Nat.mod_lt _ (by norm_num))
    by_cases h0 : n / 10 = 0
    · refine ⟨[Nat.digitChar (n % 10)], ?_, by simp, ?_, ?_⟩
      · simp [Nat.toDigitsCore, h0]
      · simpa using hd
      · have : n % 10 = n := by omega
        show (0 : Int) * 10 + digitVal (Nat.digitChar (n % 10)) = n
        rw [hv, this]; simp
    · have hlt : n / 10 < fuel := by omega
      obtain ⟨l, hl, hne, hdig, hval⟩ := ih (n / 10) (Nat.digitChar (n % 10) :: ds) hlt
      refine ⟨l ++ [Nat.digitChar (n % 10)], ?_, by simp, ?_, ?_⟩
      · simp [Nat.toDigitsCore, h0, hl]
      · intro c hc
        rcases List.mem_append.1 hc with h1 | h1
        · exact hdig c h1
        · simp at h1; subst h1; exact hd
      · rw [digitsValue_snoc, hval, hv]
        have := Nat.div_add_mod n 10
        push_cast
        omega

theorem toDigits_spec (n : Nat) :
    Nat.toDigits 10 n ≠ [] ∧ (∀ c ∈ Nat.toDigits 10 n, c.isDigit = true) ∧
      digitsValue (Nat.toDigits 10 n) = n := by
  obtain ⟨l, hl, hne, hdig, hval⟩ := toDigitsCore_spec (n + 1) n [] (Nat.lt_succ_self n)
  simp only [List.append_nil] at hl
  unfold Nat.toDigits
  rw [hl]
  exact ⟨hne, hdig, hval⟩

theorem isDigit_facts (c : Char) (h : c.isDigit = true) :
    isspace c = false ∧ c ≠ '-' ∧ c ≠ '+' ∧ c ≠ ',' ∧ c ≠ '\n' := by
  refine ⟨?_, ?_, ?_, ?_, ?_⟩
  · simp only [isspace, Bool.or_eq_false_iff, decide_eq_false_iff_not]
    refine ⟨⟨⟨⟨⟨?_, ?_⟩, ?_⟩, ?_⟩, ?_⟩, ?_⟩ <;> (rintro rfl; revert h; decide)
  all_goals (rintro rfl; revert h; decide)

theorem takeWhile_all {α : Type} (p : α → Bool) (l : List α) (h : ∀ c ∈ l, p c = true) :
    l.takeWhile p = l := by
  induction l with
  | nil => rfl
  | cons c cs ih =>
    have hc : p c = true := h c (by simp)
    simp [List.takeWhile, hc, ih (fun d hd => h d (by simp [hd]))]

/-- Parsing a run of digits gives its value, when that value fits an `int`. -/
theorem stoi_digits (l : List Char) (hne : l ≠ []) (hd : ∀ c ∈ l, c.isDigit = true)
    (hr : digitsValue l ≤ INT_MAX) (h0 : 0 ≤ digitsValue l) :
    stoi l = .ok (digitsValue l) := by
  cases l with
  | nil => exact absurd rfl hne
  | cons c cs =>
    obtain ⟨hs, hm, hp, -, -⟩ := isDigit_facts c (hd c (by simp))
    have htw := takeWhile_all Char.isDigit (c :: cs) hd
    have hmin : INT_MIN ≤ digitsValue (c :: cs) := by
      have : INT_MIN ≤ 0 := by decide
      omega
    have hsg : readSign (c :: cs) = (false, c :: cs) := by
      unfold readSign
      split
      · rename_i heq; simp at heq; exact absurd heq.1 hm
      · rename_i heq; simp at heq; exact absurd heq.1 hp
      · rfl
    unfold stoi
    simp only [List.dropWhile, hs, hsg, htw]
    simp [hmin, hr]

theorem stoi_neg_digits (l : List Char) (hne : l ≠ []) (hd : ∀ c ∈ l, c.isDigit = true)
    (hr : INT_MIN ≤ - digitsValue l) (h0 : 0 ≤ digitsValue l) :
    stoi ('-' :: l) = .ok (- digitsValue l) := by
  have htw := takeWhile_all Char.isDigit l hd
  have hmax : - digitsValue l ≤ INT_MAX := by
    have : (0 : Int) ≤ INT_MAX := by decide
    omega
  have hs : isspace '-' = false := by decide
  unfold stoi
  simp only [List.dropWhile, hs, readSign, htw]
  simp [hne, hr, hmax]

/-- Reading back what `<<` wrote for an `int` gives that `int`. -/
theorem stoi_intToChars (n : Int) (hlo : INT_MIN ≤ n) (hhi : n ≤ INT_MAX) :
    stoi (intToChars n) = .ok n := by
  obtain ⟨hne, hd, hv⟩ := toDigits_spec n.natAbs
  unfold intToChars
  by_cases hn : n < 0
  · have e : - digitsValue (Nat.toDigits 10 n.natAbs) = n := by rw [hv]; omega
    rw [if_pos hn, stoi_neg_digits _ hne hd (by rw [e]; exact hlo) (by rw [hv]; omega), e]
  · have e : digitsValue (Nat.toDigits 10 n.natAbs) = n := by rw [hv]; omega
    rw [if_neg hn, stoi_digits _ hne hd (by rw [e]; exact hhi) (by rw [hv]; omega), e]

theorem intToChars_clean (n : Int) : ',' ∉ intToChars n ∧ '\n' ∉ intToChars n := by
  obtain ⟨-, hd, -⟩ := toDigits_spec n.natAbs
  have h1 : ',' ∉ Nat.toDigits 10 n.natAbs := fun h => (isDigit_facts _ (hd _ h)).2.2.2.1 rfl
  have h2 : '\n' ∉ Nat.toDigits 10 n.natAbs := fun h => (isDigit_facts _ (hd _ h)).2.2.2.2 rfl
  unfold intToChars
  by_cases hn : n < 0
  · simp only [if_pos hn, List.mem_cons, not_or]
    exact ⟨⟨by decide, h1⟩, ⟨by decide, h2⟩⟩
  · simp only [if_neg hn]
    exact ⟨h1, h2⟩

/-! ## Saving -/

theorem foldl_writeUser (us : List User) (acc : List Char) :
    us.foldl writeUser acc = acc ++ (us.map (fun u => userLine u ++ ['\n'])).flatten := by
  induction us generalizing acc with
  | nil => simp
  | cons u us ih => simp [ih, writeUser, userLine]

theorem foldl_writeDevice (ds : List Device) (acc : List Char) :
    ds.foldl writeDevice acc = acc ++ (ds.map (fun d => deviceLine d ++ ['\n'])).flatten := by
  induction ds generalizing acc with
  | nil => simp
  | cons d ds ih => simp [ih, writeDevice, deviceLine]

/-- The lines of a file made of newline-terminated lines are those lines. -/
theorem fileLines_join (ls : List (List Char)) (h : ∀ l ∈ ls, '\n' ∉ l) (rest : List Char) :
    fileLines ((ls.map (fun l => l ++ ['\n'])).flatten ++ rest) = ls ++ fileLines rest := by
  induction ls with
  | nil => simp
  | cons l ls ih =>
    have hl : '\n' ∉ l := h l (by simp)
    have := fileLines_line l ((ls.map (fun l => l ++ ['\n'])).flatten ++ rest) hl
    have e : (List.map (fun l => l ++ ['\n']) (l :: ls)).flatten ++ rest =
        l ++ '\n' :: ((ls.map (fun l => l ++ ['\n'])).flatten ++ rest) := by
      simp
    rw [e, this, ih (fun l hl => h l (by simp [hl]))]
    rfl

theorem fileLines_nil : fileLines [] = [] := rfl

/-! ## Loading -/

theorem loadLoop_append (body : CyberManagementSystem → List Char →
    Except StoiError CyberManagementSystem) (s : CyberManagementSystem)
    (l1 l2 : List (List Char)) :
    loadLoop body s (l1 ++ l2) =
      match loadLoop body s l1 with
      | .error e => .error e
      | .ok s1 => loadLoop body s1 l2 := by
  induction l1 generalizing s with
  | nil => simp [loadLoop]
  | cons l l1 ih =>
    simp only [List.cons_append, loadLoop]
    cases body s l with
    | error e => simp
    | ok s1 => simp [ih]

theorem loadUserLine_userLine (s : CyberManagementSystem) (u : User)
    (h : IsInt u.id ∧ ',' ∉ u.username ∧ u.role ≠ [] ∧ '\n' ∉ u.role) :
    loadUserLine s (userLine u) =
      .ok { s with
        users := s.users ++ [u]
        userIdCounter :=
          if u.id ≥ s.userIdCounter then wrapInt (u.id + 1) else s.userIdCounter } := by
  obtain ⟨hi, hun, hre, hrn⟩ := h
  unfold loadUserLine userLine
  rw [splitUserLine_fields _ _ _ (intToChars_clean u.id).1 hun hre hrn]
  simp only [stoi_intToChars u.id hi.1 hi.2]

theorem loadDeviceLine_deviceLine (s : CyberManagementSystem) (d : Device)
    (h : IsInt d.id ∧ ',' ∉ d.name ∧ ',' ∉ d.ip ∧ d.status ≠ [] ∧ '\n' ∉ d.status) :
    loadDeviceLine s (deviceLine d) =
      .ok { s with
        devices := s.devices ++ [d]
        deviceIdCounter :=
          if d.id ≥ s.deviceIdCounter then wrapInt (d.id + 1) else s.deviceIdCounter } := by
  obtain ⟨hi, hnn, hin, hse, hsn⟩ := h
  unfold loadDeviceLine deviceLine
  rw [splitDeviceLine_fields _ _ _ _ (intToChars_clean d.id).1 hnn hin hse hsn]
  simp only [stoi_intToChars d.id hi.1 hi.2]

theorem loadLoop_userLines (us : List User) (s : CyberManagementSystem)
    (h : ∀ u ∈ us, IsInt u.id ∧ ',' ∉ u.username ∧ u.role ≠ [] ∧ '\n' ∉ u.role) :
    ∃ s1, loadLoop loadUserLine s (us.map userLine) = .ok s1 ∧
      s1.users = s.users ++ us ∧ s1.devices = s.devices ∧
      s1.deviceIdCounter = s.deviceIdCounter := by
  induction us generalizing s with
  | nil => exact ⟨s, rfl, by simp, rfl, rfl⟩
  | cons u us ih =>
    simp only [List.map_cons, loadLoop, loadUserLine_userLine s u (h u (by simp))]
    obtain ⟨s1, h1, h2, h3, h4⟩ := ih _ (fun v hv => h v (by simp [hv]))
    exact ⟨s1, h1, by simp [h2], h3, h4⟩

theorem loadLoop_deviceLines (ds : List Device) (s : CyberManagementSystem)
    (h : ∀ d ∈ ds, IsInt d.id ∧ ',' ∉ d.name ∧ ',' ∉ d.ip ∧ d.status ≠ [] ∧ '\n' ∉ d.status) :
    ∃ s1, loadLoop loadDeviceLine s (ds.map deviceLine) = .ok s1 ∧
      s1.devices = s.devices ++ ds ∧ s1.users = s.users ∧
      s1.userIdCounter = s.userIdCounter := by
  induction ds generalizing s with
  | nil => exact ⟨s, rfl, by simp, rfl, rfl⟩
  | cons d ds ih =>
    simp only [List.map_cons, loadLoop, loadDeviceLine_deviceLine s d (h d (by simp))]
    obtain ⟨s1, h1, h2, h3, h4⟩ := ih _ (fun v hv => h v (by simp [hv]))
    exact ⟨s1, h1, by simp [h2], h3, h4⟩

theorem saveUsers_eq (s : CyberManagementSystem) (previous : Option (List Char)) :
    saveUsers s previous = (s.users.map (fun u => userLine u ++ ['\n'])).flatten := by
  simp [saveUsers, ofstreamOpen, foldl_writeUser]

theorem saveDevices_eq (s : CyberManagementSystem) (previous : Option (List Char)) :
    saveDevices s previous = (s.devices.map (fun d => deviceLine d ++ ['\n'])).flatten := by
  simp [saveDevices, ofstreamOpen, foldl_writeDevice]

theorem fileLines_saveUsers (s : CyberManagementSystem) (previous : Option (List Char))
    (h : ∀ u ∈ s.users, '\n' ∉ u.username ∧ '\n' ∉ u.role) :
    fileLines (saveUsers s previous) = s.users.map userLine := by
  have := fileLines_join (s.users.map userLine) (by
    intro l hl
    obtain ⟨u, hu, rfl⟩ := List.mem_map.1 hl
    have := (intToChars_clean u.id).2
    have := h u hu
    simp [userLine]; tauto) []
  simpa [saveUsers_eq, fileLines_nil, List.map_map, Function.comp_def] using this

theorem fileLines_saveDevices (s : CyberManagementSystem) (previous : Option (List Char))
    (h : ∀ d ∈ s.devices, '\n' ∉ d.name ∧ '\n' ∉ d.ip ∧ '\n' ∉ d.status) :
    fileLines (saveDevices s previous) = s.devices.map deviceLine := by
  have := fileLines_join (s.devices.map deviceLine) (by
    intro l hl
    obtain ⟨d, hd, rfl⟩ := List.mem_map.1 hl
    have := (intToChars_clean d.id).2
    have := h d hd
    simp [deviceLine]; tauto) []
  simpa [saveDevices_eq, fileLines_nil, List.map_map, Function.comp_def] using this

/-! ## The claims -/

/-- C1, as amended: a store whose fields contain neither a comma nor a newline
and whose last field (role, status) is never empty is reproduced record for
record, ids and field values, by `saveUsers` then `loadUsers` into a fresh store,
and by `saveDevices` then `loadDevices`; the empty collection included. -/
theorem C1_save_load_roundtrip (s : CyberManagementSystem) (pu pd : Option (List Char))
    (hu : ∀ u ∈ s.users, IsInt u.id ∧ Plain u.username ∧ Plain u.role ∧ u.role ≠ [])
    (hd : ∀ d ∈ s.devices,
      IsInt d.id ∧ Plain d.name ∧ Plain d.ip ∧ Plain d.status ∧ d.status ≠ []) :
    (∃ s1, loadUsers (some (saveUsers s pu)) initial = .ok s1 ∧ s1.users = s.users) ∧
    (∃ s1, loadDevices (some (saveDevices s pd)) initial = .ok s1 ∧
      s1.devices = s.devices) := by
  constructor
  · obtain ⟨s1, h1, h2, -, -⟩ := loadLoop_userLines s.users initial (fun u hu1 => by
      obtain ⟨a, b, c, d⟩ := hu u hu1
      exact ⟨a, b.1, d, c.2⟩)
    refine ⟨s1, ?_, by simpa [initial] using h2⟩
    simp only [loadUsers]
    rw [fileLines_saveUsers s pu (fun u hu1 => ⟨(hu u hu1).2.1.2, (hu u hu1).2.2.1.2⟩)]
    exact h1
  · obtain ⟨s1, h1, h2, -, -⟩ := loadLoop_deviceLines s.devices initial (fun d hd1 => by
      obtain ⟨a, b, c, e, f⟩ := hd d hd1
      exact ⟨a, b.1, c.1, f, e.2⟩)
    refine ⟨s1, ?_, by simpa [initial] using h2⟩
    simp only [loadDevices]
    rw [fileLines_saveDevices s pd (fun d hd1 =>
      ⟨(hd d hd1).2.1.2, (hd d hd1).2.2.1.2, (hd d hd1).2.2.2.1.2⟩)]
    exact h1

/-- C1 at a concrete store: one user and one device added to the empty store. -/
theorem C1_save_load_roundtrip_witness :
    (∃ s1, loadUsers (some (saveUsers (addDevice (addUser initial "alice".toList
        "admin".toList) "router1".toList "10.0.0.1".toList "active".toList) none)) initial
        = .ok s1 ∧
      s1.users = [⟨1, "alice".toList, "admin".toList⟩]) ∧
    (∃ s1, loadDevices (some (saveDevices (addDevice (addUser initial "alice".toList
        "admin".toList) "router1".toList "10.0.0.1".toList "active".toList) none)) initial
        = .ok s1 ∧
      s1.devices =
        [⟨1, "router1".toList, "10.0.0.1".toList, "active".toList⟩]) :=
  C1_save_load_roundtrip (addDevice (addUser initial "alice".toList "admin".toList)
    "router1".toList "10.0.0.1".toList "active".toList) none none (by decide) (by decide)

/-- C1 as stated fails: a user added with an empty role has no comma in any
field, yet its saved line `1,alice,` is dropped on reload; and a role holding a
newline, also free of commas, comes back cut at the newline. -/
theorem C1_counterexample :
    (addUser initial "alice".toList []).users ≠ [] ∧
    (∀ u ∈ (addUser initial "alice".toList []).users, ',' ∉ u.username ∧ ',' ∉ u.role) ∧
    saveUsers (addUser initial "alice".toList []) none = "1,alice,\n".toList ∧
    loadUsers (some (saveUsers (addUser initial "alice".toList []) none)) initial
      = .ok initial ∧
    (∀ u ∈ (addUser initial "alice".toList "ad\nmin".toList).users,
      ',' ∉ u.username ∧ ',' ∉ u.role) ∧
    loadUsers (some (saveUsers (addUser initial "alice".toList "ad\nmin".toList) none))
      initial = .ok ⟨[⟨1, "alice".toList, "ad".toList⟩], [], 2, 1⟩ := by
  decide

/-- C9: `saveUsers` leaves in the file exactly one line `<decimal id>,<username>,<role>`
plus newline per user, in collection order, and `saveDevices` one line
`<decimal id>,<name>,<ip>,<status>` plus newline per device; the result is the
same whatever the file held before, and an empty collection gives an empty file. -/
theorem C9_save_format (s : CyberManagementSystem) (previous : Option (List Char)) :
    saveUsers s previous = (s.users.map (fun u =>
      intToChars u.id ++ ",".toList ++ u.username ++ ",".toList ++ u.role
        ++ "\n".toList)).flatten ∧
    saveDevices s previous = (s.devices.map (fun d =>
      intToChars d.id ++ ",".toList ++ d.name ++ ",".toList ++ d.ip ++ ",".toList
        ++ d.status ++ "\n".toList)).flatten ∧
    (s.users = [] → saveUsers s previous = []) ∧
    (s.devices = [] → saveDevices s previous = []) := by
  refine ⟨?_, ?_, ?_, ?_⟩
  · simp [saveUsers_eq, userLine]
  · simp [saveDevices_eq, deviceLine]
  · intro h; simp [saveUsers_eq, h]
  · intro h; simp [saveDevices_eq, h]

/-! ## Listing -/

theorem foldl_printUser (us : List User) (out : List (List Char)) :
    us.foldl printUser out = out ++ us.map (fun u => userRow u ++ ['\n']) := by
  induction us generalizing out with
  | nil => simp
  | cons u us ih => simp [ih, printUser, userRow]

theorem foldl_printDevice (ds : List Device) (out : List (List Char)) :
    ds.foldl printDevice out = out ++ ds.map (fun d => deviceRow d ++ ['\n']) := by
  induction ds generalizing out with
  | nil => simp
  | cons d ds ih => simp [ih, printDevice, deviceRow]

theorem listUsers_eq (s : CyberManagementSystem) :
    listUsers s = "\nUsers:\n".toList :: (s.users.map (fun u => userRow u ++ ['\n']) ++
      if s.users = [] then ["No users available.\n".toList] else []) := by
  unfold listUsers
  simp only [foldl_printUser]
  cases h : s.users <;> simp

theorem listDevices_eq (s : CyberManagementSystem) :
    listDevices s = "\nDevices:\n".toList :: (s.devices.map (fun d => deviceRow d ++ ['\n']) ++
      if s.devices = [] then ["No devices available.\n".toList] else []) := by
  unfold listDevices
  simp only [foldl_printDevice]
  cases h : s.devices <;> simp

theorem userRow_head (u : User) : ∃ t, userRow u ++ ['\n'] = 'I' :: t :=
  ⟨_, by simp [userRow]; rfl⟩

theorem deviceRow_head (d : Device) : ∃ t, deviceRow d ++ ['\n'] = 'I' :: t :=
  ⟨_, by simp [deviceRow]; rfl⟩

/-- C10: `listUsers` writes its heading, then exactly one row
`ID: <id>, Username: <username>, Role: <role>` per user in the order of the
collection, then `No users available.` exactly when the collection is empty;
`listDevices` does the same with rows `ID: <id>, Name: <name>, IP: <ip>,
Status: <status>` and `No devices available.`. -/
theorem C10_listing (s : CyberManagementSystem) :
    (listUsers s = "\nUsers:\n".toList ::
        (s.users.map (fun u => userRow u ++ "\n".toList) ++
          if s.users = [] then ["No users available.\n".toList] else [])) ∧
    ("No users available.\n".toList ∈ listUsers s ↔ s.users = []) ∧
    (listDevices s = "\nDevices:\n".toList ::
        (s.devices.map (fun d => deviceRow d ++ "\n".toList) ++
          if s.devices = [] then ["No devices available.\n".toList] else [])) ∧
    ("No devices available.\n".toList ∈ listDevices s ↔ s.devices = []) := by
  refine ⟨listUsers_eq s, ?_, listDevices_eq s, ?_⟩
  · rw [listUsers_eq]
    constructor
    · intro h
      by_contra hne
      simp only [hne, if_false, List.append_nil, List.mem_cons, List.mem_map] at h
      rcases h with h | ⟨u, -, hu⟩
      · exact absurd h (by decide)
      · obtain ⟨t, ht⟩ := userRow_head u
        rw [ht] at hu
        have h1 : some 'I' = some 'N' := congrArg List.head? hu
        exact absurd h1 (by decide)
    · intro h
      simp [h]
  · rw [listDevices_eq]
    constructor
    · intro h
      by_contra hne
      simp only [hne, if_false, List.append_nil, List.mem_cons, List.mem_map] at h
      rcases h with h | ⟨d, -, hd⟩
      · exact absurd h (by decide)
      · obtain ⟨t, ht⟩ := deviceRow_head d
        rw [ht] at hd
        have h1 : some 'I' = some 'N' := congrArg List.head? hd
        exact absurd h1 (by decide)
    · intro h
      simp [h]

/-! ## Sessions -/

theorem wrapInt_isInt (x : Int) : IsInt (wrapInt x) := by
  unfold IsInt wrapInt INT_MIN INT_MAX
  omega

theorem wrapInt_of_isInt (x : Int) (h : IsInt x) : wrapInt x = x := by
  unfold IsInt INT_MIN INT_MAX at h
  unfold wrapInt
  omega

theorem wrapInt_add (a b : Int) : wrapInt (wrapInt a + b) = wrapInt (a + b) := by
  unfold wrapInt
  omega

theorem runOps_append (s : CyberManagementSystem) (a b : List Op) :
    runOps s (a ++ b) = runOps (runOps s a) b := by
  simp [runOps, List.foldl_append]

theorem countAddUser_append (a b : List Op) :
    countAddUser (a ++ b) = countAddUser a + countAddUser b := by
  induction a with
  | nil => simp [countAddUser]
  | cons op a ih => cases op <;> simp [countAddUser, ih]; omega

theorem countAddDevice_append (a b : List Op) :
    countAddDevice (a ++ b) = countAddDevice a + countAddDevice b := by
  induction a with
  | nil => simp [countAddDevice]
  | cons op a ih => cases op <;> simp [countAddDevice, ih]; omega

theorem countAddUser_replicate (n : Nat) (a b : List Char) :
    countAddUser (List.replicate n (Op.addUser a b)) = n := by
  induction n with
  | zero => rfl
  | succ n ih => simp [List.replicate_succ, countAddUser, ih]

/-- The user id counter after a sequence of calls: one wrapped increment per
`addUser`. -/
theorem runOps_userIdCounter (ops : List Op) (s : CyberManagementSystem)
    (hs : IsInt s.userIdCounter) :
    (runOps s ops).userIdCounter = wrapInt (s.userIdCounter + countAddUser ops) := by
  induction ops generalizing s with
  | nil => simp [runOps, countAddUser, wrapInt_of_isInt _ hs]
  | cons op ops ih =>
    have e : runOps s (op :: ops) = runOps (applyOp s op) ops := rfl
    rw [e]
    cases op with
    | addUser a b =>
      have hc : (applyOp s (Op.addUser a b)).userIdCounter = wrapInt (s.userIdCounter + 1) := rfl
      rw [ih _ (by rw [hc]; exact wrapInt_isInt _), hc, wrapInt_add]
      congr 1
      simp [countAddUser]; ring
    | listUsers => exact ih _ hs
    | addDevice a b c => exact ih _ hs
    | listDevices => exact ih _ hs

theorem runOps_deviceIdCounter (ops : List Op) (s : CyberManagementSystem)
    (hs : IsInt s.deviceIdCounter) :
    (runOps s ops).deviceIdCounter = wrapInt (s.deviceIdCounter + countAddDevice ops) := by
  induction ops generalizing s with
  | nil => simp [runOps, countAddDevice, wrapInt_of_isInt _ hs]
  | cons op ops ih =>
    have e : runOps s (op :: ops) = runOps (applyOp s op) ops := rfl
    rw [e]
    cases op with
    | addDevice a b c =>
      have hc : (applyOp s (Op.addDevice a b c)).deviceIdCounter =
          wrapInt (s.deviceIdCounter + 1) := rfl
      rw [ih _ (by rw [hc]; exact wrapInt_isInt _), hc, wrapInt_add]
      congr 1
      simp [countAddDevice]; ring
    | listUsers => exact ih _ hs
    | addUser a b => exact ih _ hs
    | listDevices => exact ih _ hs

/-- The ids of the users after a session: those present at the start, then the
successive counter values, as long as the counter stays within `int`. -/
theorem runOps_user_ids (ops : List Op) (s : CyberManagementSystem)
    (hc : INT_MIN ≤ s.userIdCounter)
    (hn : s.userIdCounter + (countAddUser ops : Int) ≤ INT_MAX + 1) :
    (runOps s ops).users.map User.id = s.users.map User.id ++
      (List.range (countAddUser ops)).map (fun (i : Nat) => s.userIdCounter + (i : Int)) := by
  induction ops using List.reverseRecOn with
  | nil => simp [runOps, countAddUser]
  | append_singleton ops op ih =>
    rw [runOps_append, countAddUser_append] at *
    cases op with
    | addUser a b =>
      have hk : countAddUser [Op.addUser a b] = 1 := rfl
      rw [hk] at hn ⊢
      push_cast at hn
      have hI : IsInt s.userIdCounter := by
        unfold IsInt INT_MAX; unfold INT_MAX at hn; constructor <;> omega
      have hcnt := runOps_userIdCounter ops s hI
      have e : (runOps (runOps s ops) [Op.addUser a b]).users =
          (runOps s ops).users ++ [⟨(runOps s ops).userIdCounter, a, b⟩] := rfl
      have hr : IsInt (s.userIdCounter + (countAddUser ops : Int)) := by
        unfold IsInt INT_MIN INT_MAX
        unfold INT_MAX at hn
        unfold INT_MIN at hc
        constructor <;> omega
      rw [e, List.map_append, ih (by omega), List.range_succ, List.map_append, hcnt,
        wrapInt_of_isInt _ hr]
      simp
    | listUsers => simpa [countAddUser, runOps, applyOp] using ih (by simpa [countAddUser] using hn)
    | addDevice a b c =>
      simpa [countAddUser, runOps, applyOp, addDevice] using ih (by simpa [countAddUser] using hn)
    | listDevices => simpa [countAddUser, runOps, applyOp] using ih (by simpa [countAddUser] using hn)

theorem runOps_device_ids (ops : List Op) (s : CyberManagementSystem)
    (hc : INT_MIN ≤ s.deviceIdCounter)
    (hn : s.deviceIdCounter + (countAddDevice ops : Int) ≤ INT_MAX + 1) :
    (runOps s ops).devices.map Device.id = s.devices.map Device.id ++
      (List.range (countAddDevice ops)).map
        (fun (i : Nat) => s.deviceIdCounter + (i : Int)) := by
  induction ops using List.reverseRecOn with
  | nil => simp [runOps, countAddDevice]
  | append_singleton ops op ih =>
    rw [runOps_append, countAddDevice_append] at *
    cases op with
    | addDevice a b c =>
      have hk : countAddDevice [Op.addDevice a b c] = 1 := rfl
      rw [hk] at hn ⊢
      push_cast at hn
      have hI : IsInt s.deviceIdCounter := by
        unfold IsInt INT_MAX; unfold INT_MAX at hn; constructor <;> omega
      have hcnt := runOps_deviceIdCounter ops s hI
      have e : (runOps (runOps s ops) [Op.addDevice a b c]).devices =
          (runOps s ops).devices ++ [⟨(runOps s ops).deviceIdCounter, a, b, c⟩] := rfl
      have hr : IsInt (s.deviceIdCounter + (countAddDevice ops : Int)) := by
        unfold IsInt INT_MIN INT_MAX
        unfold INT_MAX at hn
        unfold INT_MIN at hc
        constructor <;> omega
      rw [e, List.map_append, ih (by omega), List.range_succ, List.map_append, hcnt,
        wrapInt_of_isInt _ hr]
      simp
    | listUsers =>
      simpa [countAddDevice, runOps, applyOp] using ih (by simpa [countAddDevice] using hn)
    | addUser a b =>
      simpa [countAddDevice, runOps, applyOp, addUser] using
        ih (by simpa [countAddDevice] using hn)
    | listDevices =>
      simpa [countAddDevice, runOps, applyOp] using ih (by simpa [countAddDevice] using hn)

/-! ## What loading does to the store -/

theorem stoi_isInt (str : List Char) (v : Int) (h : stoi str = .ok v) : IsInt v := by
  simp only [stoi] at h
  split_ifs at h with h1 h2 h3 h4 <;>
    (simp only [Except.ok.injEq] at h; subst h; unfold IsInt; assumption)

theorem splitUserLine_comma (line i a b : List Char) (h : splitUserLine line = some (i, a, b)) :
    ',' ∉ i ∧ ',' ∉ a ∧ (',' :: ',' :: []).Sublist line := by
  rw [splitUserLine_eq] at h
  have s1 := takeUntil_spec ',' line
  rcases h1 : takeUntil ',' line with ⟨x, _ | r1⟩
  · simp [h1] at h
  · have s2 := takeUntil_spec ',' r1
    rcases h2 : takeUntil ',' r1 with ⟨y, _ | r2⟩
    · simp [h1, h2] at h
    · simp only [h1, h2] at h s1 s2
      have e1 := s1.2.1 r1 rfl
      have e2 := s2.2.1 r2 rfl
      have hxy : x = i ∧ y = a := by
        rcases h3 : takeUntil '\n' r2 with ⟨z, _ | r3⟩
        · by_cases hz : z = [] <;> simp [h3, hz] at h
          exact ⟨h.1, h.2.1⟩
        · simp [h3] at h
          exact ⟨h.1, h.2.1⟩
      refine ⟨hxy.1 ▸ s1.1, hxy.2 ▸ s2.1, ?_⟩
      rw [e1, e2]
      have : (',' :: ',' :: []).Sublist (',' :: (y ++ ',' :: r2)) :=
        List.Sublist.cons₂ _ ((List.singleton_sublist.2 (by simp)))
      exact this.trans (List.sublist_append_right _ _)

theorem splitDeviceLine_comma (line i a b c : List Char)
    (h : splitDeviceLine line = some (i, a, b, c)) :
    ',' ∉ i ∧ ',' ∉ a ∧ ',' ∉ b ∧ (',' :: ',' :: ',' :: []).Sublist line := by
  rw [splitDeviceLine_eq] at h
  have s1 := takeUntil_spec ',' line
  rcases h1 : takeUntil ',' line with ⟨x, _ | r1⟩
  · simp [h1] at h
  · have s2 := takeUntil_spec ',' r1
    rcases h2 : takeUntil ',' r1 with ⟨y, _ | r2⟩
    · simp [h1, h2] at h
    · have s3 := takeUntil_spec ',' r2
      rcases h3 : takeUntil ',' r2 with ⟨z, _ | r3⟩
      · simp [h1, h2, h3] at h
      · simp only [h1, h2, h3] at h s1 s2 s3
        have e1 := s1.2.1 r1 rfl
        have e2 := s2.2.1 r2 rfl
        have e3 := s3.2.1 r3 rfl
        have hxy : x = i ∧ y = a ∧ z = b := by
          rcases h4 : takeUntil '\n' r3 with ⟨w, _ | r4⟩
          · by_cases hw : w = [] <;> simp [h4, hw] at h
            exact ⟨h.1, h.2.1, h.2.2.1⟩
          · simp [h4] at h
            exact ⟨h.1, h.2.1, h.2.2.1⟩
        refine ⟨hxy.1 ▸ s1.1, hxy.2.1 ▸ s2.1, hxy.2.2 ▸ s3.1, ?_⟩
        rw [e1, e2, e3]
        have h0 : (',' :: []).Sublist (',' :: r3) := List.singleton_sublist.2 (by simp)
        have h1 : (',' :: ',' :: []).Sublist (',' :: (z ++ ',' :: r3)) :=
          List.Sublist.cons₂ _ (h0.trans (List.sublist_append_right _ _))
        have h2 : (',' :: ',' :: ',' :: []).Sublist (',' :: (y ++ ',' :: (z ++ ',' :: r3))) :=
          List.Sublist.cons₂ _ (h1.trans (List.sublist_append_right _ _))
        exact h2.trans (List.sublist_append_right _ _)

/-- One pass of the loop of `loadUsers` that does not throw: either the line is
skipped and nothing changes, or one user is appended and the counter updated.
The device members are untouched either way. -/
theorem loadUserLine_ok (s s1 : CyberManagementSystem) (line : List Char)
    (h : loadUserLine s line = .ok s1) :
    s1.devices = s.devices ∧ s1.deviceIdCounter = s.deviceIdCounter ∧
    ((splitUserLine line = none ∧ s1 = s) ∨
      ∃ i a b id, splitUserLine line = some (i, a, b) ∧ stoi i = .ok id ∧
        s1.users = s.users ++ [⟨id, a, b⟩] ∧
        s1.userIdCounter = bumpCounter s.userIdCounter id) := by
  unfold loadUserLine at h
  rcases hsp : splitUserLine line with _ | ⟨i, a, b⟩
  · simp only [hsp, Except.ok.injEq] at h
    subst h
    exact ⟨rfl, rfl, Or.inl ⟨rfl, rfl⟩⟩
  · simp only [hsp] at h
    rcases hst : stoi i with e | id
    · simp [hst] at h
    · simp only [hst, Except.ok.injEq] at h
      subst h
      exact ⟨rfl, rfl, Or.inr ⟨i, a, b, id, rfl, hst, rfl, rfl⟩⟩

theorem loadDeviceLine_ok (s s1 : CyberManagementSystem) (line : List Char)
    (h : loadDeviceLine s line = .ok s1) :
    s1.users = s.users ∧ s1.userIdCounter = s.userIdCounter ∧
    ((splitDeviceLine line = none ∧ s1 = s) ∨
      ∃ i a b c id, splitDeviceLine line = some (i, a, b, c) ∧ stoi i = .ok id ∧
        s1.devices = s.devices ++ [⟨id, a, b, c⟩] ∧
        s1.deviceIdCounter = bumpCounter s.deviceIdCounter id) := by
  unfold loadDeviceLine at h
  rcases hsp : splitDeviceLine line with _ | ⟨i, a, b, c⟩
  · simp only [hsp, Except.ok.injEq] at h
    subst h
    exact ⟨rfl, rfl, Or.inl ⟨rfl, rfl⟩⟩
  · simp only [hsp] at h
    rcases hst : stoi i with e | id
    · simp [hst] at h
    · simp only [hst, Except.ok.injEq] at h
      subst h
      exact ⟨rfl, rfl, Or.inr ⟨i, a, b, c, id, rfl, hst, rfl, rfl⟩⟩

/-- A load of the users file that does not throw: the users read are appended,
each with an id in the range of `int` and a comma-free username, the counter is
updated once per record read, and the device members are untouched. -/
theorem loadLoop_users_ok (lines : List (List Char)) (s s1 : CyberManagementSystem)
    (h : loadLoop loadUserLine s lines = .ok s1) :
    s1.devices = s.devices ∧ s1.deviceIdCounter = s.deviceIdCounter ∧
    ∃ new, s1.users = s.users ++ new ∧
      (∀ u ∈ new, IsInt u.id ∧ ',' ∉ u.username) ∧
      s1.userIdCounter = (new.map User.id).foldl bumpCounter s.userIdCounter := by
  induction lines generalizing s with
  | nil =>
    simp only [loadLoop, Except.ok.injEq] at h
    subst h
    exact ⟨rfl, rfl, [], by simp, by simp, rfl⟩
  | cons line lines ih =>
    simp only [loadLoop] at h
    rcases hb : loadUserLine s line with e | s2
    · simp [hb] at h
    · simp only [hb] at h
      obtain ⟨d1, d2, new, hn1, hn2, hn3⟩ := ih s2 h
      obtain ⟨f1, f2, hcase⟩ := loadUserLine_ok s s2 line hb
      refine ⟨d1.trans f1, d2.trans f2, ?_⟩
      rcases hcase with ⟨-, rfl⟩ | ⟨i, a, b, id, hsp, hst, hu, hc⟩
      · exact ⟨new, hn1, hn2, hn3⟩
      · refine ⟨⟨id, a, b⟩ :: new, ?_, ?_, ?_⟩
        · rw [hn1, hu]; simp
        · intro u hu1
          rcases List.mem_cons.1 hu1 with rfl | hu2
          · exact ⟨stoi_isInt _ _ hst, (splitUserLine_comma _ _ _ _ hsp).2.1⟩
          · exact hn2 u hu2
        · rw [hn3, hc]; rfl

theorem loadLoop_devices_ok (lines : List (List Char)) (s s1 : CyberManagementSystem)
    (h : loadLoop loadDeviceLine s lines = .ok s1) :
    s1.users = s.users ∧ s1.userIdCounter = s.userIdCounter ∧
    ∃ new, s1.devices = s.devices ++ new ∧
      (∀ d ∈ new, IsInt d.id ∧ ',' ∉ d.name ∧ ',' ∉ d.ip) ∧
      s1.deviceIdCounter = (new.map Device.id).foldl bumpCounter s.deviceIdCounter := by
  induction lines generalizing s with
  | nil =>
    simp only [loadLoop, Except.ok.injEq] at h
    subst h
    exact ⟨rfl, rfl, [], by simp, by simp, rfl⟩
  | cons line lines ih =>
    simp only [loadLoop] at h
    rcases hb : loadDeviceLine s line with e | s2
    · simp [hb] at h
    · simp only [hb] at h
      obtain ⟨d1, d2, new, hn1, hn2, hn3⟩ := ih s2 h
      obtain ⟨f1, f2, hcase⟩ := loadDeviceLine_ok s s2 line hb
      refine ⟨d1.trans f1, d2.trans f2, ?_⟩
      rcases hcase with ⟨-, rfl⟩ | ⟨i, a, b, c, id, hsp, hst, hu, hc⟩
      · exact ⟨new, hn1, hn2, hn3⟩
      · refine ⟨⟨id, a, b, c⟩ :: new, ?_, ?_, ?_⟩
        · rw [hn1, hu]; simp
        · intro u hu1
          rcases List.mem_cons.1 hu1 with rfl | hu2
          · have := splitDeviceLine_comma _ _ _ _ _ hsp
            exact ⟨stoi_isInt _ _ hst, this.2.1, this.2.2.1⟩
          · exact hn2 u hu2
        · rw [hn3, hc]; rfl

/-- What the constructor leaves when no `std::stoi` call throws. -/
theorem construct_ok (uf df : Option (List Char)) (s : CyberManagementSystem)
    (h : construct uf df = .ok s) :
    (∀ u ∈ s.users, IsInt u.id ∧ ',' ∉ u.username) ∧
    s.userIdCounter = (s.users.map User.id).foldl bumpCounter 1 ∧
    (∀ d ∈ s.devices, IsInt d.id ∧ ',' ∉ d.name ∧ ',' ∉ d.ip) ∧
    s.deviceIdCounter = (s.devices.map Device.id).foldl bumpCounter 1 ∧
    (uf = none ∨ uf = some [] → s.users = []) ∧
    (df = none ∨ df = some [] → s.devices = []) := by
  unfold construct at h
  rcases hu : loadUsers uf initial with e | s1
  · simp [hu] at h
  · simp only [hu] at h
    have hu1 : loadLoop loadUserLine initial (match uf with
        | none => []
        | some c => fileLines c) = .ok s1 := by
      cases uf <;> simpa [loadUsers, loadLoop] using hu
    have hd1 : loadLoop loadDeviceLine s1 (match df with
        | none => []
        | some c => fileLines c) = .ok s := by
      cases df <;> simpa [loadDevices, loadLoop] using h
    obtain ⟨a1, a2, newu, a3, a4, a5⟩ := loadLoop_users_ok _ _ _ hu1
    obtain ⟨b1, b2, newd, b3, b4, b5⟩ := loadLoop_devices_ok _ _ _ hd1
    have eu : s.users = newu := by rw [b1, a3]; simp [initial]
    have ed : s.devices = newd := by rw [b3, a1]; simp [initial]
    refine ⟨eu ▸ a4, ?_, ed ▸ b4, ?_, ?_, ?_⟩
    · rw [b2, a5, eu]; rfl
    · rw [b5, a2, ed]; rfl
    · intro hf
      have : loadUsers uf initial = .ok initial := by
        rcases hf with rfl | rfl <;> rfl
      rw [this] at hu
      simp only [Except.ok.injEq] at hu
      rw [b1, ← hu]; rfl
    · intro hf
      have : loadDevices df s1 = .ok s1 := by
        rcases hf with rfl | rfl <;> rfl
      rw [this] at h
      simp only [Except.ok.injEq] at h
      rw [← h, a1]; rfl

theorem le_nextIdAfter (ids : List Int) (c : Int) : c ≤ nextIdAfter c ids := by
  induction ids generalizing c with
  | nil => simp [nextIdAfter]
  | cons i ids ih =>
    have := ih (max c (i + 1))
    simp only [nextIdAfter, List.foldl_cons] at this ⊢
    omega

theorem lt_nextIdAfter (ids : List Int) (c : Int) (i : Int) (h : i ∈ ids) :
    i < nextIdAfter c ids := by
  induction ids generalizing c with
  | nil => simp at h
  | cons j ids ih =>
    rcases List.mem_cons.1 h with rfl | h1
    · have := le_nextIdAfter ids (max c (i + 1))
      simp only [nextIdAfter, List.foldl_cons] at this ⊢
      omega
    · exact ih _ h1

theorem nextIdAfter_le (ids : List Int) (c b : Int) (hc : c ≤ b) (h : ∀ i ∈ ids, i + 1 ≤ b) :
    nextIdAfter c ids ≤ b := by
  induction ids generalizing c with
  | nil => simpa [nextIdAfter] using hc
  | cons j ids ih =>
    have hj := h j (by simp)
    exact ih (max c (j + 1)) (by omega) (fun i hi => h i (by simp [hi]))

/-- Without overflow the counter updates of a load compute `max(floor, max(ids) + 1)`. -/
theorem foldl_bumpCounter (ids : List Int) (c : Int)
    (h : ∀ i ∈ ids, IsInt i ∧ i < INT_MAX) :
    ids.foldl bumpCounter c = nextIdAfter c ids := by
  induction ids generalizing c with
  | nil => rfl
  | cons i ids ih =>
    obtain ⟨⟨h1, -⟩, h2⟩ := h i (by simp)
    have hb : bumpCounter c i = max c (i + 1) := by
      unfold bumpCounter
      have : wrapInt (i + 1) = i + 1 := wrapInt_of_isInt _ (by
        unfold IsInt INT_MIN INT_MAX; unfold INT_MIN at h1; unfold INT_MAX at h2
        constructor <;> omega)
      rw [this]
      split_ifs <;> omega
    simp only [List.foldl_cons, hb, nextIdAfter]
    exact ih _ (fun j hj => h j (by simp [hj]))

/-- C2, as amended: in a session started with the users file absent or empty,
whatever calls of `addDevice` and of the list methods are interleaved, the k-th
call of `addUser` appends a record whose id is k, for every k up to the largest
`int` 2147483647; the ids given so far are then 1, 2, ..., k in that order. -/
theorem C2_kth_addUser_id (uf df : Option (List Char)) (s0 : CyberManagementSystem)
    (pre : List Op) (username role : List Char)
    (hfile : uf = none ∨ uf = some [])
    (hs : construct uf df = .ok s0)
    (hk : countAddUser pre + 1 ≤ 2147483647) :
    (runOps s0 (pre ++ [Op.addUser username role])).users =
      (runOps s0 pre).users ++ [⟨((countAddUser pre + 1 : Nat) : Int), username, role⟩] ∧
    (runOps s0 (pre ++ [Op.addUser username role])).users.map User.id =
      (List.range (countAddUser pre + 1)).map (fun (i : Nat) => ((i + 1 : Nat) : Int)) := by
  obtain ⟨-, hc, -, -, hu, -⟩ := construct_ok uf df s0 hs
  have hu0 := hu hfile
  rw [hu0] at hc
  have hc1 : s0.userIdCounter = 1 := hc
  constructor
  · rw [runOps_append]
    have e : (runOps (runOps s0 pre) [Op.addUser username role]).users =
        (runOps s0 pre).users ++ [⟨(runOps s0 pre).userIdCounter, username, role⟩] := rfl
    rw [e, runOps_userIdCounter pre s0 (by rw [hc1]; decide), hc1, wrapInt_of_isInt]
    · congr 3
      push_cast
      ring
    · unfold IsInt INT_MIN INT_MAX
      constructor <;> omega
  · have := runOps_user_ids (pre ++ [Op.addUser username role]) s0 (by rw [hc1]; decide) (by
      rw [hc1, countAddUser_append]
      have : countAddUser [Op.addUser username role] = 1 := rfl
      rw [this]
      unfold INT_MAX
      push_cast
      omega)
    rw [this, hu0, hc1, countAddUser_append]
    have : countAddUser [Op.addUser username role] = 1 := rfl
    rw [this]
    simp only [List.map_nil, List.nil_append]
    apply List.map_congr_left
    intro i _
    push_cast
    ring

/-- C2 at a concrete session without files: the second `addUser`, made after an
`addDevice` and a listing, gets id 2. -/
theorem C2_kth_addUser_id_witness :
    (runOps initial ([Op.addUser "alice".toList [], Op.addDevice [] [] [], Op.listUsers] ++
        [Op.addUser [] "admin".toList])).users =
      (runOps initial [Op.addUser "alice".toList [], Op.addDevice [] [] [],
        Op.listUsers]).users ++ [⟨2, [], "admin".toList⟩] ∧
    (runOps initial ([Op.addUser "alice".toList [], Op.addDevice [] [] [], Op.listUsers] ++
        [Op.addUser [] "admin".toList])).users.map User.id = [1, 2] :=
  C2_kth_addUser_id none none initial
    [Op.addUser "alice".toList [], Op.addDevice [] [] [], Op.listUsers] [] "admin".toList
    (Or.inl rfl) rfl (by decide)

/-- C2 as stated fails for k = 2147483648: in a session started without files,
after 2147483647 calls of `addUser` the counter has wrapped, and the next call
appends a record whose id is -2147483648. -/
theorem C2_counterexample :
    construct none none = .ok initial ∧
    countAddUser (List.replicate 2147483647 (Op.addUser [] [])) + 1 = 2147483648 ∧
    (runOps initial (List.replicate 2147483647 (Op.addUser [] []) ++
        [Op.addUser [] []])).users.getLast? = some ⟨-2147483648, [], []⟩ := by
  refine ⟨rfl, by rw [countAddUser_replicate], ?_⟩
  rw [runOps_append]
  have e : (runOps (runOps initial (List.replicate 2147483647 (Op.addUser [] [])))
      [Op.addUser [] []]).users =
      (runOps initial (List.replicate 2147483647 (Op.addUser [] []))).users ++
        [⟨(runOps initial (List.replicate 2147483647 (Op.addUser [] []))).userIdCounter,
          [], []⟩] := rfl
  rw [e, List.getLast?_append, runOps_userIdCounter _ _ (by decide), countAddUser_replicate]
  have : wrapInt (initial.userIdCounter + ((2147483647 : Nat) : Int)) = -2147483648 := by
    decide
  rw [this]
  rfl

/-- C3, as amended: when the records loaded from a file all have ids below the
largest `int`, the id counter after loading is `max(1, max(loaded ids) + 1)` and
that is the id given by the next `addUser` (`addDevice`).  It equals
`max(loaded ids) + 1` whenever the largest loaded id is not negative, whether the
ids are contiguous, sorted or neither, and it is 1 when the file is absent or
empty. -/
theorem C3_next_id_after_load (uf df : Option (List Char)) (s : CyberManagementSystem)
    (h : construct uf df = .ok s)
    (hu : ∀ u ∈ s.users, u.id < INT_MAX) (hd : ∀ d ∈ s.devices, d.id < INT_MAX) :
    (∀ username role, (addUser s username role).users =
      s.users ++ [⟨nextIdAfter 1 (s.users.map User.id), username, role⟩]) ∧
    (∀ name ip status, (addDevice s name ip status).devices =
      s.devices ++ [⟨nextIdAfter 1 (s.devices.map Device.id), name, ip, status⟩]) ∧
    (∀ u ∈ s.users, (∀ v ∈ s.users, v.id ≤ u.id) → 0 ≤ u.id →
      nextIdAfter 1 (s.users.map User.id) = u.id + 1) ∧
    (∀ d ∈ s.devices, (∀ v ∈ s.devices, v.id ≤ d.id) → 0 ≤ d.id →
      nextIdAfter 1 (s.devices.map Device.id) = d.id + 1) ∧
    (uf = none ∨ uf = some [] → nextIdAfter 1 (s.users.map User.id) = 1) ∧
    (df = none ∨ df = some [] → nextIdAfter 1 (s.devices.map Device.id) = 1) := by
  obtain ⟨hu1, hcu, hd1, hcd, hue, hde⟩ := construct_ok uf df s h
  have eu : s.userIdCounter = nextIdAfter 1 (s.users.map User.id) := by
    rw [hcu]
    apply foldl_bumpCounter
    intro i hi
    obtain ⟨u, hu2, rfl⟩ := List.mem_map.1 hi
    exact ⟨(hu1 u hu2).1, hu u hu2⟩
  have ed : s.deviceIdCounter = nextIdAfter 1 (s.devices.map Device.id) := by
    rw [hcd]
    apply foldl_bumpCounter
    intro i hi
    obtain ⟨d, hd2, rfl⟩ := List.mem_map.1 hi
    exact ⟨(hd1 d hd2).1, hd d hd2⟩
  refine ⟨?_, ?_, ?_, ?_, ?_, ?_⟩
  · intro a b; rw [← eu]; rfl
  · intro a b c; rw [← ed]; rfl
  · intro u hmem hmax h0
    have h1 := lt_nextIdAfter (s.users.map User.id) 1 u.id (List.mem_map.2 ⟨u, hmem, rfl⟩)
    have h2 := nextIdAfter_le (s.users.map User.id) 1 (u.id + 1) (by omega) (by
      intro i hi
      obtain ⟨v, hv, rfl⟩ := List.mem_map.1 hi
      have := hmax v hv
      omega)
    omega
  · intro d hmem hmax h0
    have h1 := lt_nextIdAfter (s.devices.map Device.id) 1 d.id (List.mem_map.2 ⟨d, hmem, rfl⟩)
    have h2 := nextIdAfter_le (s.devices.map Device.id) 1 (d.id + 1) (by omega) (by
      intro i hi
      obtain ⟨v, hv, rfl⟩ := List.mem_map.1 hi
      have := hmax v hv
      omega)
    omega
  · intro hf; rw [hue hf]; rfl
  · intro hf; rw [hde hf]; rfl

/-- C3 at a concrete file: ids 5 and 1, unsorted and not contiguous, give next id 6;
the absent devices file gives next id 1. -/
theorem C3_next_id_after_load_witness :
    construct (some "5,eve,analyst\n1,bob,admin\n".toList) none =
      .ok ⟨[⟨5, "eve".toList, "analyst".toList⟩, ⟨1, "bob".toList, "admin".toList⟩], [], 6, 1⟩ ∧
    (addUser ⟨[⟨5, "eve".toList, "analyst".toList⟩, ⟨1, "bob".toList, "admin".toList⟩], [], 6, 1⟩
        "zed".toList "guest".toList).users =
      [⟨5, "eve".toList, "analyst".toList⟩, ⟨1, "bob".toList, "admin".toList⟩,
        ⟨6, "zed".toList, "guest".toList⟩] ∧
    (addDevice ⟨[⟨5, "eve".toList, "analyst".toList⟩, ⟨1, "bob".toList, "admin".toList⟩], [], 6, 1⟩
        "r".toList "i".toList "up".toList).devices = [⟨1, "r".toList, "i".toList, "up".toList⟩] :=
  ⟨by decide,
    (C3_next_id_after_load (some "5,eve,analyst\n1,bob,admin\n".toList) none
      ⟨[⟨5, "eve".toList, "analyst".toList⟩, ⟨1, "bob".toList, "admin".toList⟩], [], 6, 1⟩
      (by decide) (by decide) (by decide)).1 "zed".toList "guest".toList,
    (C3_next_id_after_load (some "5,eve,analyst\n1,bob,admin\n".toList) none
      ⟨[⟨5, "eve".toList, "analyst".toList⟩, ⟨1, "bob".toList, "admin".toList⟩], [], 6, 1⟩
      (by decide) (by decide) (by decide)).2.1 "r".toList "i".toList "up".toList⟩

/-- C3 as stated fails: a file whose only id is -5 loads, and the next id given
is 1, not -5 + 1; a file whose only id is 2147483647 loads, and the next id given
is -2147483648, not 2147483647 + 1. -/
theorem C3_counterexample :
    construct (some "-5,eve,analyst\n".toList) none =
      .ok ⟨[⟨-5, "eve".toList, "analyst".toList⟩], [], 1, 1⟩ ∧
    (addUser ⟨[⟨-5, "eve".toList, "analyst".toList⟩], [], 1, 1⟩ [] []).users =
      [⟨-5, "eve".toList, "analyst".toList⟩, ⟨1, [], []⟩] ∧
    construct (some "2147483647,eve,analyst\n".toList) none =
      .ok ⟨[⟨2147483647, "eve".toList, "analyst".toList⟩], [], -2147483648, 1⟩ ∧
    (addUser ⟨[⟨2147483647, "eve".toList, "analyst".toList⟩], [], -2147483648, 1⟩ [] []).users =
      [⟨2147483647, "eve".toList, "analyst".toList⟩, ⟨-2147483648, [], []⟩] := by
  decide

/-- C5, as amended: when the records loaded from each file have pairwise distinct
ids, all below the largest `int`, then after any sequence of calls that does not
need an id beyond the largest `int`, the ids of the users are pairwise distinct
and the ids of the devices are pairwise distinct. -/
theorem C5_ids_unique (uf df : Option (List Char)) (s0 : CyberManagementSystem)
    (ops : List Op) (h : construct uf df = .ok s0)
    (hu : (s0.users.map User.id).Nodup) (hd : (s0.devices.map Device.id).Nodup)
    (hum : ∀ u ∈ s0.users, u.id < INT_MAX) (hdm : ∀ d ∈ s0.devices, d.id < INT_MAX)
    (hun : s0.userIdCounter + (countAddUser ops : Int) ≤ INT_MAX + 1)
    (hdn : s0.deviceIdCounter + (countAddDevice ops : Int) ≤ INT_MAX + 1) :
    ((runOps s0 ops).users.map User.id).Nodup ∧
    ((runOps s0 ops).devices.map Device.id).Nodup := by
  obtain ⟨hu1, hcu, hd1, hcd, -, -⟩ := construct_ok uf df s0 h
  have eu : s0.userIdCounter = nextIdAfter 1 (s0.users.map User.id) := by
    rw [hcu]
    apply foldl_bumpCounter
    intro i hi
    obtain ⟨u, hu2, rfl⟩ := List.mem_map.1 hi
    exact ⟨(hu1 u hu2).1, hum u hu2⟩
  have ed : s0.deviceIdCounter = nextIdAfter 1 (s0.devices.map Device.id) := by
    rw [hcd]
    apply foldl_bumpCounter
    intro i hi
    obtain ⟨d, hd2, rfl⟩ := List.mem_map.1 hi
    exact ⟨(hd1 d hd2).1, hdm d hd2⟩
  have hmin : INT_MIN ≤ (1 : Int) := by decide
  constructor
  · rw [runOps_user_ids ops s0 (by
      rw [eu]; exact le_trans hmin (le_nextIdAfter _ _)) hun]
    refine List.Nodup.append hu ?_ ?_
    · refine List.Nodup.map ?_ (List.nodup_range _)
      intro a b hab
      simpa using hab
    · intro i h1 h2
      obtain ⟨k, -, rfl⟩ := List.mem_map.1 h2
      have := lt_nextIdAfter _ 1 _ h1
      rw [← eu] at this
      omega
  · rw [runOps_device_ids ops s0 (by
      rw [ed]; exact le_trans hmin (le_nextIdAfter _ _)) hdn]
    refine List.Nodup.append hd ?_ ?_
    · refine List.Nodup.map ?_ (List.nodup_range _)
      intro a b hab
      simpa using hab
    · intro i h1 h2
      obtain ⟨k, -, rfl⟩ := List.mem_map.1 h2
      have := lt_nextIdAfter _ 1 _ h1
      rw [← ed] at this
      omega

/-- C5 at a concrete run: ids 5 and 1 loaded, then two users and a device added. -/
theorem C5_ids_unique_witness :
    ((runOps ⟨[⟨5, "eve".toList, "analyst".toList⟩, ⟨1, "bob".toList, "admin".toList⟩], [], 6, 1⟩
      [Op.addUser [] [], Op.addDevice [] [] [], Op.addUser [] []]).users.map User.id).Nodup ∧
    ((runOps ⟨[⟨5, "eve".toList, "analyst".toList⟩, ⟨1, "bob".toList, "admin".toList⟩], [], 6, 1⟩
      [Op.addUser [] [], Op.addDevice [] [] [], Op.addUser [] []]).devices.map
        Device.id).Nodup :=
  C5_ids_unique (some "5,eve,analyst\n1,bob,admin\n".toList) none
    ⟨[⟨5, "eve".toList, "analyst".toList⟩, ⟨1, "bob".toList, "admin".toList⟩], [], 6, 1⟩
    [Op.addUser [] [], Op.addDevice [] [] [], Op.addUser [] []]
    (by decide) (by decide) (by decide) (by decide) (by decide) (by decide) (by decide)

/-- C5 as stated fails: a users file that repeats id 1 loads without failure and
leaves two users with the same id; and a file with the distinct ids -2147483648
and 2147483647 leaves the counter at -2147483648, so that the next `addUser`
repeats an id already present. -/
theorem C5_counterexample :
    construct (some "1,eve,analyst\n1,bob,admin\n".toList) none =
      .ok ⟨[⟨1, "eve".toList, "analyst".toList⟩, ⟨1, "bob".toList, "admin".toList⟩], [], 2, 1⟩ ∧
    ¬ ([⟨1, "eve".toList, "analyst".toList⟩, ⟨1, "bob".toList, "admin".toList⟩].map
      User.id).Nodup ∧
    construct (some "-2147483648,eve,analyst\n2147483647,bob,admin\n".toList) none =
      .ok ⟨[⟨-2147483648, "eve".toList, "analyst".toList⟩,
        ⟨2147483647, "bob".toList, "admin".toList⟩], [], -2147483648, 1⟩ ∧
    ¬ ((runOps ⟨[⟨-2147483648, "eve".toList, "analyst".toList⟩,
        ⟨2147483647, "bob".toList, "admin".toList⟩], [], -2147483648, 1⟩
      [Op.addUser [] []]).users.map User.id).Nodup := by
  decide

/-! ## Lines that are skipped, lines that throw -/

theorem fileLines_ne_nil (cs : List Char) (h : cs ≠ []) : fileLines cs ≠ [] := by
  cases cs with
  | nil => exact absurd rfl h
  | cons c cs =>
    by_cases hc : c = '\n'
    · simp [fileLines, hc]
    · simp only [fileLines, hc, if_false]
      cases fileLines cs <;> simp

/-- Lines are read independently of what follows a newline. -/
theorem fileLines_append_newline (p rest : List Char) :
    fileLines (p ++ '\n' :: rest) = fileLines (p ++ ['\n']) ++ fileLines rest := by
  induction p with
  | nil => simp [fileLines]
  | cons c p ih =>
    by_cases hc : c = '\n'
    · simp [fileLines, hc, ih]
    · have hne := fileLines_ne_nil (p ++ ['\n']) (by simp)
      simp only [List.cons_append, fileLines, hc, if_false, List.append_eq]
      rw [ih]
      cases h : fileLines (p ++ ['\n']) with
      | nil => exact absurd h hne
      | cons l ls => rfl

theorem fileLines_append (pre rest : List Char) (hpre : pre = [] ∨ ∃ p, pre = p ++ ['\n']) :
    fileLines (pre ++ rest) = fileLines pre ++ fileLines rest := by
  rcases hpre with rfl | ⟨p, rfl⟩
  · simp [fileLines]
  · rw [List.append_assoc]
    exact fileLines_append_newline p rest

theorem fileLines_no_newline (cs : List Char) : ∀ l ∈ fileLines cs, '\n' ∉ l := by
  induction cs with
  | nil => simp [fileLines]
  | cons c cs ih =>
    intro l hl
    by_cases hc : c = '\n'
    · simp only [fileLines, hc, if_true, List.mem_cons] at hl
      rcases hl with rfl | hl
      · simp
      · exact ih l hl
    · simp only [fileLines, hc, if_false] at hl
      cases h : fileLines cs with
      | nil =>
        simp only [h, List.mem_singleton] at hl
        subst hl
        simpa using Ne.symm hc
      | cons l1 ls =>
        simp only [h, List.mem_cons] at hl
        rcases hl with rfl | hl
        · have := ih l1 (by simp [h])
          simp only [List.mem_cons, not_or]
          exact ⟨Ne.symm hc, this⟩
        · exact ih l (by simp [h, hl])

theorem splitUserLine_short (line : List Char) (h : line.count ',' < 2) :
    splitUserLine line = none := by
  rcases hsp : splitUserLine line with _ | ⟨i, a, b⟩
  · rfl
  · have := (splitUserLine_comma line i a b hsp).2.2.count_le ','
    simp at this
    omega

theorem splitDeviceLine_short (line : List Char) (h : line.count ',' < 3) :
    splitDeviceLine line = none := by
  rcases hsp : splitDeviceLine line with _ | ⟨i, a, b, c⟩
  · rfl
  · have := (splitDeviceLine_comma line i a b c hsp).2.2.2.count_le ','
    simp at this
    omega

/-- C6: a line with fewer than two commas in the users file (fewer than three in
the devices file), whatever else it holds, makes the loop body return the store
unchanged without throwing, and the load of a file holding that line, ended by a
newline or last in the file, gives what the load of the file without the line
gives: no record for it, the id counter untouched, the following lines read as
usual. -/
theorem C6_short_line_skipped (s : CyberManagementSystem) (pre line post : List Char)
    (hpre : pre = [] ∨ ∃ p, pre = p ++ ['\n']) (hline : '\n' ∉ line) :
    (line.count ',' < 2 →
      loadUserLine s line = .ok s ∧
      loadUsers (some (pre ++ (line ++ '\n' :: post))) s = loadUsers (some (pre ++ post)) s ∧
      loadUsers (some (pre ++ line)) s = loadUsers (some pre) s) ∧
    (line.count ',' < 3 →
      loadDeviceLine s line = .ok s ∧
      loadDevices (some (pre ++ (line ++ '\n' :: post))) s =
        loadDevices (some (pre ++ post)) s ∧
      loadDevices (some (pre ++ line)) s = loadDevices (some pre) s) := by
  constructor
  · intro h
    have hskip : ∀ t, loadUserLine t line = .ok t := fun t => by
      simp [loadUserLine, splitUserLine_short line h]
    refine ⟨hskip s, ?_, ?_⟩
    · simp only [loadUsers]
      rw [fileLines_append pre _ hpre, fileLines_append pre post hpre,
        fileLines_line _ _ hline, loadLoop_append, loadLoop_append]
      cases loadLoop loadUserLine s (fileLines pre) with
      | error e => rfl
      | ok s1 => simp [loadLoop, hskip s1]
    · simp only [loadUsers]
      rw [fileLines_append pre _ hpre, fileLines_last _ hline, loadLoop_append]
      cases loadLoop loadUserLine s (fileLines pre) with
      | error e => rfl
      | ok s1 => by_cases hl : line = [] <;> simp [loadLoop, hskip s1, hl]
  · intro h
    have hskip : ∀ t, loadDeviceLine t line = .ok t := fun t => by
      simp [loadDeviceLine, splitDeviceLine_short line h]
    refine ⟨hskip s, ?_, ?_⟩
    · simp only [loadDevices]
      rw [fileLines_append pre _ hpre, fileLines_append pre post hpre,
        fileLines_line _ _ hline, loadLoop_append, loadLoop_append]
      cases loadLoop loadDeviceLine s (fileLines pre) with
      | error e => rfl
      | ok s1 => simp [loadLoop, hskip s1]
    · simp only [loadDevices]
      rw [fileLines_append pre _ hpre, fileLines_last _ hline, loadLoop_append]
      cases loadLoop loadDeviceLine s (fileLines pre) with
      | error e => rfl
      | ok s1 => by_cases hl : line = [] <;> simp [loadLoop, hskip s1, hl]

/-- C6 at a concrete file: the line `x,y`, between two good lines, is skipped by
both loaders (for the devices file the two other lines are short as well). -/
theorem C6_short_line_skipped_witness :
    loadUserLine initial "x,y".toList = .ok initial ∧
    loadUsers (some ("1,eve,analyst\n".toList ++ ("x,y".toList ++ '\n' :: "2,bob,admin\n".toList)))
      initial = loadUsers (some ("1,eve,analyst\n".toList ++ "2,bob,admin\n".toList)) initial ∧
    loadUsers (some ("1,eve,analyst\n".toList ++ "2,bob,admin\n".toList)) initial =
      .ok ⟨[⟨1, "eve".toList, "analyst".toList⟩, ⟨2, "bob".toList, "admin".toList⟩], [], 3, 1⟩ ∧
    loadDeviceLine initial "x,y".toList = .ok initial :=
  ⟨((C6_short_line_skipped initial "1,eve,analyst\n".toList "x,y".toList "2,bob,admin\n".toList
      (Or.inr ⟨"1,eve,analyst".toList, rfl⟩) (by decide)).1 (by decide)).1,
    ((C6_short_line_skipped initial "1,eve,analyst\n".toList "x,y".toList "2,bob,admin\n".toList
      (Or.inr ⟨"1,eve,analyst".toList, rfl⟩) (by decide)).1 (by decide)).2.1,
    by decide,
    ((C6_short_line_skipped initial "1,eve,analyst\n".toList "x,y".toList "2,bob,admin\n".toList
      (Or.inr ⟨"1,eve,analyst".toList, rfl⟩) (by decide)).2 (by decide)).1⟩

theorem loadLoop_throws (body : CyberManagementSystem → List Char →
    Except StoiError CyberManagementSystem) (lines : List (List Char)) (line : List Char)
    (s : CyberManagementSystem) (hl : line ∈ lines)
    (hb : ∀ t, ∃ e, body t line = .error e) :
    ∃ e, loadLoop body s lines = .error e := by
  induction lines generalizing s with
  | nil => simp at hl
  | cons l ls ih =>
    simp only [loadLoop]
    rcases hbl : body s l with e | s1
    · exact ⟨e, rfl⟩
    · rcases List.mem_cons.1 hl with rfl | h1
      · obtain ⟨e, he⟩ := hb s
        rw [he] at hbl
        cases hbl
      · exact ih s1 h1

/-- C7, as amended: when a line of the file passes the field-count check and
`std::stoi` throws on its id field (no decimal digit after optional leading
whitespace and an optional sign, or a value outside the range of `int`), the
load fails: the exception leaves `loadUsers` (`loadDevices`), whatever the other
lines and the store are. -/
theorem C7_stoi_failure_propagates (file line : List Char) (s : CyberManagementSystem)
    (hl : line ∈ fileLines file) :
    (∀ i a b e0, splitUserLine line = some (i, a, b) → stoi i = .error e0 →
      ∃ e, loadUsers (some file) s = .error e) ∧
    (∀ i a b c e0, splitDeviceLine line = some (i, a, b, c) → stoi i = .error e0 →
      ∃ e, loadDevices (some file) s = .error e) := by
  constructor
  · intro i a b e0 hsp hst
    exact loadLoop_throws loadUserLine _ line s hl (fun t => ⟨e0, by
      simp [loadUserLine, hsp, hst]⟩)
  · intro i a b c e0 hsp hst
    exact loadLoop_throws loadDeviceLine _ line s hl (fun t => ⟨e0, by
      simp [loadDeviceLine, hsp, hst]⟩)

/-- C7 at a concrete file: the second line has three fields and the id field `id`. -/
theorem C7_stoi_failure_propagates_witness :
    "id,bob,admin".toList ∈ fileLines "1,eve,analyst\nid,bob,admin\n".toList ∧
    splitUserLine "id,bob,admin".toList = some ("id".toList, "bob".toList, "admin".toList) ∧
    stoi "id".toList = .error .invalid_argument ∧
    ∃ e, loadUsers (some "1,eve,analyst\nid,bob,admin\n".toList) initial = .error e :=
  ⟨by decide, by decide, by decide,
    (C7_stoi_failure_propagates "1,eve,analyst\nid,bob,admin\n".toList "id,bob,admin".toList
      initial (by decide)).1 "id".toList "bob".toList "admin".toList .invalid_argument
      (by decide) (by decide)⟩

/-- C7 as stated fails: the id field `7x` is not a decimal integer, the line
passes the field-count check, and the load succeeds with a record of id 7. -/
theorem C7_counterexample :
    splitUserLine "7x,eve,analyst".toList =
      some ("7x".toList, "eve".toList, "analyst".toList) ∧
    loadUsers (some "7x,eve,analyst\n".toList) initial =
      .ok ⟨[⟨7, "eve".toList, "analyst".toList⟩], [], 8, 1⟩ ∧
    loadDevices (some " +7x,r1,10.0.0.1,up\n".toList) initial =
      .ok ⟨[], [⟨7, "r1".toList, "10.0.0.1".toList, "up".toList⟩], 1, 8⟩ := by
  decide

/-- C8, as amended: a user whose username contains a comma, and a device whose
name or ip contains a comma, is not among the records that loading the saved
file gives.  (A comma in the last field, role or status, is kept as it is.) -/
theorem C8_comma_corrupts (s : CyberManagementSystem) (pu pd : Option (List Char)) :
    (∀ u ∈ s.users, ',' ∈ u.username →
      ∀ s1, loadUsers (some (saveUsers s pu)) initial = .ok s1 → u ∉ s1.users) ∧
    (∀ d ∈ s.devices, ',' ∈ d.name ∨ ',' ∈ d.ip →
      ∀ s1, loadDevices (some (saveDevices s pd)) initial = .ok s1 → d ∉ s1.devices) := by
  constructor
  · intro u _ hc s1 h hmem
    obtain ⟨-, -, new, hn, hall, -⟩ := loadLoop_users_ok _ _ _ h
    rw [hn] at hmem
    simp only [initial, List.nil_append] at hmem
    exact (hall u hmem).2 hc
  · intro d _ hc s1 h hmem
    obtain ⟨-, -, new, hn, hall, -⟩ := loadLoop_devices_ok _ _ _ h
    rw [hn] at hmem
    simp only [initial, List.nil_append] at hmem
    rcases hc with hc | hc
    · exact (hall d hmem).2.1 hc
    · exact (hall d hmem).2.2 hc

/-- C8 at a concrete store: the username `doe,j` comes back as `doe`. -/
theorem C8_comma_corrupts_witness :
    loadUsers (some (saveUsers ⟨[⟨1, "doe,j".toList, "admin".toList⟩], [], 2, 1⟩ none)) initial =
      .ok ⟨[⟨1, "doe".toList, "j,admin".toList⟩], [], 2, 1⟩ ∧
    (⟨1, "doe,j".toList, "admin".toList⟩ : User) ∉
      [(⟨1, "doe".toList, "j,admin".toList⟩ : User)] :=
  ⟨by decide,
    (C8_comma_corrupts ⟨[⟨1, "doe,j".toList, "admin".toList⟩], [], 2, 1⟩ none none).1
      ⟨1, "doe,j".toList, "admin".toList⟩ (by decide) (by decide)
      ⟨[⟨1, "doe".toList, "j,admin".toList⟩], [], 2, 1⟩ (by decide)⟩

/-- C8 as stated fails: a comma in the role of a user, or in the status of a
device, survives the save and the reload: the record comes back with its
original field values. -/
theorem C8_counterexample :
    ',' ∈ "admin,ops".toList ∧
    loadUsers (some (saveUsers ⟨[⟨1, "eve".toList, "admin,ops".toList⟩], [], 2, 1⟩ none)) initial =
      .ok ⟨[⟨1, "eve".toList, "admin,ops".toList⟩], [], 2, 1⟩ ∧
    loadDevices (some (saveDevices ⟨[], [⟨1, "r1".toList, "10.0.0.1".toList, "up,ok".toList⟩],
      1, 2⟩ none)) initial =
      .ok ⟨[], [⟨1, "r1".toList, "10.0.0.1".toList, "up,ok".toList⟩], 1, 2⟩ := by
  decide

/-! ## Well-formed and short lines -/

/-- One `getline(file, line)` of the loading loop, on the stream itself: the loop
ends when the call fails; a line that ran into the end of the file is the last. -/
theorem fileLines_getline (cs : List Char) :
    fileLines cs =
      if (getline (IStream.open cs) '\n').1.failbit then []
      else (getline (IStream.open cs) '\n').2 ::
        (if (getline (IStream.open cs) '\n').1.eofbit then []
         else fileLines (getline (IStream.open cs) '\n').1.buf) := by
  rw [fileLines_step]
  rcases h : takeUntil '\n' cs with ⟨l, _ | rest⟩
  · by_cases hl : l = [] <;> simp [getline, IStream.open, h, hl]
  · simp [getline, IStream.open, h]

theorem loadLoop_wellFormed_users (lines : List (List Char)) (s : CyberManagementSystem)
    (hnl : ∀ l ∈ lines, '\n' ∉ l)
    (hwf : ∀ l ∈ lines, l.count ',' < 2 ∨ ∃ u, WellFormedUserLine l u) :
    ∃ s1 new, loadLoop loadUserLine s lines = .ok s1 ∧ s1.users = s.users ++ new ∧
      List.Forall₂ WellFormedUserLine (lines.filter (fun l => 2 ≤ l.count ',')) new := by
  induction lines generalizing s with
  | nil => exact ⟨s, [], rfl, by simp, by simp⟩
  | cons l ls ih =>
    have hnl1 : ∀ l ∈ ls, '\n' ∉ l := fun x hx => hnl x (by simp [hx])
    have hwf1 : ∀ l ∈ ls, l.count ',' < 2 ∨ ∃ u, WellFormedUserLine l u :=
      fun x hx => hwf x (by simp [hx])
    rcases hwf l (by simp) with hshort | ⟨u, i, hl, hi, ha, hb, hne, hst⟩
    · obtain ⟨s1, new, h1, h2, h3⟩ := ih s hnl1 hwf1
      refine ⟨s1, new, ?_, h2, ?_⟩
      · simp [loadLoop, loadUserLine, splitUserLine_short l hshort, h1]
      · have : ¬ 2 ≤ l.count ',' := by omega
        simpa [List.filter_cons, this] using h3
    · have hn : '\n' ∉ u.role := by
        have := hnl l (by simp)
        rw [hl] at this
        simp only [List.mem_append, List.mem_cons, not_or] at this
        exact this.2.2.2.2
      have hsp := splitUserLine_fields i u.username u.role hi ha hne hn
      rw [← hl] at hsp
      have hcnt : l.count ',' = 2 := by
        rw [hl]
        simp [List.count_append, List.count_cons, List.count_eq_zero.2 hi,
          List.count_eq_zero.2 ha, List.count_eq_zero.2 hb]
      obtain ⟨s1, new, h1, h2, h3⟩ := ih
        { s with
          users := s.users ++ [⟨u.id, u.username, u.role⟩]
          userIdCounter := bumpCounter s.userIdCounter u.id } hnl1 hwf1
      refine ⟨s1, u :: new, ?_, ?_, ?_⟩
      · simp only [loadLoop, loadUserLine, hsp, hst]
        exact h1
      · rw [h2]; simp
      · have : 2 ≤ l.count ',' := by omega
        simp only [List.filter_cons, this, decide_True, if_true]
        exact List.Forall₂.cons ⟨i, hl, hi, ha, hb, hne, hst⟩ h3

theorem loadLoop_wellFormed_devices (lines : List (List Char)) (s : CyberManagementSystem)
    (hnl : ∀ l ∈ lines, '\n' ∉ l)
    (hwf : ∀ l ∈ lines, l.count ',' < 3 ∨ ∃ d, WellFormedDeviceLine l d) :
    ∃ s1 new, loadLoop loadDeviceLine s lines = .ok s1 ∧ s1.devices = s.devices ++ new ∧
      List.Forall₂ WellFormedDeviceLine (lines.filter (fun l => 3 ≤ l.count ',')) new := by
  induction lines generalizing s with
  | nil => exact ⟨s, [], rfl, by simp, by simp⟩
  | cons l ls ih =>
    have hnl1 : ∀ l ∈ ls, '\n' ∉ l := fun x hx => hnl x (by simp [hx])
    have hwf1 : ∀ l ∈ ls, l.count ',' < 3 ∨ ∃ d, WellFormedDeviceLine l d :=
      fun x hx => hwf x (by simp [hx])
    rcases hwf l (by simp) with hshort | ⟨d, i, hl, hi, ha, hb, hc, hne, hst⟩
    · obtain ⟨s1, new, h1, h2, h3⟩ := ih s hnl1 hwf1
      refine ⟨s1, new, ?_, h2, ?_⟩
      · simp [loadLoop, loadDeviceLine, splitDeviceLine_short l hshort, h1]
      · have : ¬ 3 ≤ l.count ',' := by omega
        simpa [List.filter_cons, this] using h3
    · have hn : '\n' ∉ d.status := by
        have := hnl l (by simp)
        rw [hl] at this
        simp only [List.mem_append, List.mem_cons, not_or] at this
        exact this.2.2.2.2.2.2
      have hsp := splitDeviceLine_fields i d.name d.ip d.status hi ha hb hne hn
      rw [← hl] at hsp
      have hcnt : l.count ',' = 3 := by
        rw [hl]
        simp [List.count_append, List.count_cons, List.count_eq_zero.2 hi,
          List.count_eq_zero.2 ha, List.count_eq_zero.2 hb, List.count_eq_zero.2 hc]
      obtain ⟨s1, new, h1, h2, h3⟩ := ih
        { s with
          devices := s.devices ++ [⟨d.id, d.name, d.ip, d.status⟩]
          deviceIdCounter := bumpCounter s.deviceIdCounter d.id } hnl1 hwf1
      refine ⟨s1, d :: new, ?_, ?_, ?_⟩
      · simp only [loadLoop, loadDeviceLine, hsp, hst]
        exact h1
      · rw [h2]; simp
      · have : 3 ≤ l.count ',' := by omega
        simp only [List.filter_cons, this, decide_True, if_true]
        exact List.Forall₂.cons ⟨i, hl, hi, ha, hb, hc, hne, hst⟩ h3

/-- C4, as amended: for a users file each of whose lines is either well-formed
(exactly three comma-delimited fields, an id that `std::stoi` reads, a last field
that is not empty) or has fewer than three fields, `loadUsers` into the empty
store succeeds and yields exactly one record per well-formed line, in file
order, with that line's id and fields; the lines with fewer than three fields
give no record.  The same holds for `loadDevices` with four fields. -/
theorem C4_well_formed_lines_counted (usersFile devicesFile : List Char)
    (hu : ∀ l ∈ fileLines usersFile, l.count ',' < 2 ∨ ∃ u, WellFormedUserLine l u)
    (hd : ∀ l ∈ fileLines devicesFile, l.count ',' < 3 ∨ ∃ d, WellFormedDeviceLine l d) :
    (∃ s1, loadUsers (some usersFile) initial = .ok s1 ∧
      s1.users.length = ((fileLines usersFile).filter (fun l => 2 ≤ l.count ',')).length ∧
      List.Forall₂ WellFormedUserLine
        ((fileLines usersFile).filter (fun l => 2 ≤ l.count ',')) s1.users) ∧
    (∃ s1, loadDevices (some devicesFile) initial = .ok s1 ∧
      s1.devices.length = ((fileLines devicesFile).filter (fun l => 3 ≤ l.count ',')).length ∧
      List.Forall₂ WellFormedDeviceLine
        ((fileLines devicesFile).filter (fun l => 3 ≤ l.count ',')) s1.devices) := by
  constructor
  · obtain ⟨s1, new, h1, h2, h3⟩ :=
      loadLoop_wellFormed_users (fileLines usersFile) initial (fileLines_no_newline _) hu
    have e : s1.users = new := by rw [h2]; simp [initial]
    exact ⟨s1, h1, by rw [e]; exact h3.length_eq.symm, by rw [e]; exact h3⟩
  · obtain ⟨s1, new, h1, h2, h3⟩ :=
      loadLoop_wellFormed_devices (fileLines devicesFile) initial (fileLines_no_newline _) hd
    have e : s1.devices = new := by rw [h2]; simp [initial]
    exact ⟨s1, h1, by rw [e]; exact h3.length_eq.symm, by rw [e]; exact h3⟩

theorem sample_users_file_lines :
    ∀ l ∈ fileLines "1,eve,analyst\nx,y\n\n2,bob,admin\n".toList,
      l.count ',' < 2 ∨ ∃ u, WellFormedUserLine l u := by
  have e : fileLines "1,eve,analyst\nx,y\n\n2,bob,admin\n".toList =
      ["1,eve,analyst".toList, "x,y".toList, [], "2,bob,admin".toList] := by decide
  rw [e]
  intro l hl
  simp only [List.mem_cons, List.mem_singleton, List.not_mem_nil, or_false] at hl
  rcases hl with rfl | rfl | rfl | rfl
  · exact Or.inr ⟨⟨1, "eve".toList, "analyst".toList⟩, "1".toList,
      by decide, by decide, by decide, by decide, by decide, by decide⟩
  · exact Or.inl (by decide)
  · exact Or.inl (by decide)
  · exact Or.inr ⟨⟨2, "bob".toList, "admin".toList⟩, "2".toList,
      by decide, by decide, by decide, by decide, by decide, by decide⟩

theorem sample_devices_file_lines :
    ∀ l ∈ fileLines "7,r1,10.0.0.1,up\nr2,down\n".toList,
      l.count ',' < 3 ∨ ∃ d, WellFormedDeviceLine l d := by
  have e : fileLines "7,r1,10.0.0.1,up\nr2,down\n".toList =
      ["7,r1,10.0.0.1,up".toList, "r2,down".toList] := by decide
  rw [e]
  intro l hl
  simp only [List.mem_cons, List.mem_singleton, List.not_mem_nil, or_false] at hl
  rcases hl with rfl | rfl
  · exact Or.inr ⟨⟨7, "r1".toList, "10.0.0.1".toList, "up".toList⟩, "7".toList,
      by decide, by decide, by decide, by decide, by decide, by decide, by decide⟩
  · exact Or.inl (by decide)

/-- C4 at concrete files: two well-formed user lines among a short line and an
empty line give two users; one well-formed device line and a short one give one
device. -/
theorem C4_well_formed_lines_counted_witness :
    (∃ s1, loadUsers (some "1,eve,analyst\nx,y\n\n2,bob,admin\n".toList) initial = .ok s1 ∧
      s1.users.length = 2 ∧
      List.Forall₂ WellFormedUserLine ["1,eve,analyst".toList, "2,bob,admin".toList]
        s1.users) ∧
    (∃ s1, loadDevices (some "7,r1,10.0.0.1,up\nr2,down\n".toList) initial = .ok s1 ∧
      s1.devices.length = 1 ∧
      List.Forall₂ WellFormedDeviceLine ["7,r1,10.0.0.1,up".toList] s1.devices) :=
  C4_well_formed_lines_counted "1,eve,analyst\nx,y\n\n2,bob,admin\n".toList
    "7,r1,10.0.0.1,up\nr2,down\n".toList sample_users_file_lines sample_devices_file_lines

/-- C4 as stated fails: next to one well-formed line, a line with four fields in
the users file is not dropped but gives a second record, whose role holds the
extra comma; and a line with exactly three fields and a numeric id whose last
field is empty gives no record. -/
theorem C4_counterexample :
    loadUsers (some "1,eve,analyst\n2,bob,admin,ops\n".toList) initial =
      .ok ⟨[⟨1, "eve".toList, "analyst".toList⟩, ⟨2, "bob".toList, "admin,ops".toList⟩],
        [], 3, 1⟩ ∧
    ("2,bob,admin,ops".toList).count ',' = 3 ∧
    loadUsers (some "1,eve,\n".toList) initial = .ok initial ∧
    ("1,eve,".toList).count ',' = 2 ∧
    loadDevices (some "1,r1,10.0.0.1,up,extra\n".toList) initial =
      .ok ⟨[], [⟨1, "r1".toList, "10.0.0.1".toList, "up,extra".toList⟩], 1, 2⟩ := by
  decide

/-! ## The shell -/

theorem menuStep_store (sh : Shell) (e : Entry) :
    (menuStep sh e).store =
      if e.choice = 1 then addUser sh.store e.first e.second
      else if e.choice = 3 then addDevice sh.store e.first e.second e.third
      else sh.store := by
  unfold menuStep
  by_cases h1 : e.choice = 1
  · simp [h1]
  · by_cases h2 : e.choice = 2
    · simp [h2]
    · by_cases h3 : e.choice = 3
      · simp [h3]
      · by_cases h4 : e.choice = 4
        · simp [h4]
        · by_cases h5 : e.choice = 5 <;> simp [h1, h2, h3, h4, h5]

theorem menuStep_state (sh : Shell) (e : Entry) :
    (menuStep sh e).state = if e.choice = 5 then .TERMINATED else .RUNNING := by
  unfold menuStep
  by_cases h1 : e.choice = 1
  · simp [h1]
  · by_cases h2 : e.choice = 2
    · simp [h2]
    · by_cases h3 : e.choice = 3
      · simp [h3]
      · by_cases h4 : e.choice = 4
        · simp [h4]
        · by_cases h5 : e.choice = 5 <;> simp [h1, h2, h3, h4, h5]

theorem menuStep_append_only (sh : Shell) (e : Entry) :
    sh.store.users <+: (menuStep sh e).store.users ∧
    sh.store.devices <+: (menuStep sh e).store.devices := by
  rw [menuStep_store]
  split_ifs
  · exact ⟨List.prefix_append _ _, List.prefix_rfl⟩
  · exact ⟨List.prefix_rfl, List.prefix_append _ _⟩
  · exact ⟨List.prefix_rfl, List.prefix_rfl⟩

theorem menu_append_only (es : List Entry) (sh : Shell) :
    sh.store.users <+: (menu sh es).store.users ∧
    sh.store.devices <+: (menu sh es).store.devices := by
  induction es generalizing sh with
  | nil => exact ⟨List.prefix_rfl, List.prefix_rfl⟩
  | cons e es ih =>
    unfold menu
    cases hst : sh.state with
    | TERMINATED => exact ⟨List.prefix_rfl, List.prefix_rfl⟩
    | RUNNING =>
      obtain ⟨a1, a2⟩ := menuStep_append_only sh e
      obtain ⟨b1, b2⟩ := ih (menuStep sh e)
      exact ⟨a1.trans b1, a2.trans b2⟩

/-- C11: across every pass of the menu loop, whatever the selection, the users
before are an initial segment of the users after and so are the devices; the
users change only on selection 1, by exactly the one record appended by
`addUser`, and the devices only on selection 3, by exactly the one record
appended by `addDevice`; the same initial-segment relation holds across any run
of the menu. -/
theorem C11_append_only (sh : Shell) (e : Entry) (es : List Entry) :
    sh.store.users <+: (menuStep sh e).store.users ∧
    sh.store.devices <+: (menuStep sh e).store.devices ∧
    (menuStep sh e).store.users =
      (if e.choice = 1 then
        sh.store.users ++ [⟨sh.store.userIdCounter, e.first, e.second⟩]
      else sh.store.users) ∧
    (menuStep sh e).store.devices =
      (if e.choice = 3 then
        sh.store.devices ++ [⟨sh.store.deviceIdCounter, e.first, e.second, e.third⟩]
      else sh.store.devices) ∧
    sh.store.users <+: (menu sh es).store.users ∧
    sh.store.devices <+: (menu sh es).store.devices := by
  refine ⟨(menuStep_append_only sh e).1, (menuStep_append_only sh e).2, ?_, ?_,
    (menu_append_only es sh).1, (menu_append_only es sh).2⟩
  · rw [menuStep_store]
    by_cases h1 : e.choice = 1
    · simp [h1, addUser]
    · by_cases h3 : e.choice = 3 <;> simp [h1, h3, addDevice]
  · rw [menuStep_store]
    by_cases h1 : e.choice = 1
    · simp [h1, addUser]
    · by_cases h3 : e.choice = 3 <;> simp [h1, h3, addDevice]

theorem runOps_users_congr (ops : List Op) (s t : CyberManagementSystem)
    (hu : s.users = t.users) (hc : s.userIdCounter = t.userIdCounter) :
    (runOps s ops).users = (runOps t ops).users ∧
    (runOps s ops).userIdCounter = (runOps t ops).userIdCounter := by
  induction ops generalizing s t with
  | nil => exact ⟨hu, hc⟩
  | cons op ops ih =>
    have es : runOps s (op :: ops) = runOps (applyOp s op) ops := rfl
    have et : runOps t (op :: ops) = runOps (applyOp t op) ops := rfl
    rw [es, et]
    cases op with
    | addUser a b => exact ih _ _ (by simp [applyOp, addUser, hu, hc]) (by simp [applyOp, addUser, hc])
    | listUsers => exact ih _ _ hu hc
    | addDevice a b c => exact ih _ _ hu hc
    | listDevices => exact ih _ _ hu hc

theorem runOps_devices_congr (ops : List Op) (s t : CyberManagementSystem)
    (hu : s.devices = t.devices) (hc : s.deviceIdCounter = t.deviceIdCounter) :
    (runOps s ops).devices = (runOps t ops).devices ∧
    (runOps s ops).deviceIdCounter = (runOps t ops).deviceIdCounter := by
  induction ops generalizing s t with
  | nil => exact ⟨hu, hc⟩
  | cons op ops ih =>
    have es : runOps s (op :: ops) = runOps (applyOp s op) ops := rfl
    have et : runOps t (op :: ops) = runOps (applyOp t op) ops := rfl
    rw [es, et]
    cases op with
    | addDevice a b c =>
      exact ih _ _ (by simp [applyOp, addDevice, hu, hc]) (by simp [applyOp, addDevice, hc])
    | listUsers => exact ih _ _ hu hc
    | addUser a b => exact ih _ _ hu hc
    | listDevices => exact ih _ _ hu hc

theorem runOps_filter_addUser (ops : List Op) (s : CyberManagementSystem) :
    (runOps s ops).users = (runOps s (ops.filter isAddUser)).users ∧
    (runOps s ops).userIdCounter = (runOps s (ops.filter isAddUser)).userIdCounter := by
  induction ops generalizing s with
  | nil => exact ⟨rfl, rfl⟩
  | cons op ops ih =>
    have es : runOps s (op :: ops) = runOps (applyOp s op) ops := rfl
    rw [es]
    cases op with
    | addUser a b => simpa [List.filter_cons, isAddUser, runOps] using ih (applyOp s (.addUser a b))
    | listUsers => simpa [List.filter_cons, isAddUser, applyOp] using ih s
    | listDevices => simpa [List.filter_cons, isAddUser, applyOp] using ih s
    | addDevice a b c =>
      have h1 := ih (applyOp s (.addDevice a b c))
      have h2 := runOps_users_congr (ops.filter isAddUser) (applyOp s (.addDevice a b c)) s
        rfl rfl
      simp only [List.filter_cons, isAddUser]
      exact ⟨h1.1.trans h2.1, h1.2.trans h2.2⟩

theorem runOps_filter_addDevice (ops : List Op) (s : CyberManagementSystem) :
    (runOps s ops).devices = (runOps s (ops.filter isAddDevice)).devices ∧
    (runOps s ops).deviceIdCounter =
      (runOps s (ops.filter isAddDevice)).deviceIdCounter := by
  induction ops generalizing s with
  | nil => exact ⟨rfl, rfl⟩
  | cons op ops ih =>
    have es : runOps s (op :: ops) = runOps (applyOp s op) ops := rfl
    rw [es]
    cases op with
    | addDevice a b c =>
      simpa [List.filter_cons, isAddDevice, runOps] using ih (applyOp s (.addDevice a b c))
    | listUsers => simpa [List.filter_cons, isAddDevice, applyOp] using ih s
    | listDevices => simpa [List.filter_cons, isAddDevice, applyOp] using ih s
    | addUser a b =>
      have h1 := ih (applyOp s (.addUser a b))
      have h2 := runOps_devices_congr (ops.filter isAddDevice) (applyOp s (.addUser a b)) s
        rfl rfl
      simp only [List.filter_cons, isAddDevice]
      exact ⟨h1.1.trans h2.1, h1.2.trans h2.2⟩

/-- C12: `addDevice` leaves the users and the user id counter as they are, and
`addUser` leaves the devices and the device id counter as they are; so after any
sequence of calls the users and the user id counter, hence the id of the next
user, are what the `addUser` calls alone give, however many devices were added,
and likewise for the devices. -/
theorem C12_users_devices_independent (s : CyberManagementSystem)
    (username role name ip status : List Char) (ops : List Op) :
    (addDevice s name ip status).users = s.users ∧
    (addDevice s name ip status).userIdCounter = s.userIdCounter ∧
    (addUser s username role).devices = s.devices ∧
    (addUser s username role).deviceIdCounter = s.deviceIdCounter ∧
    (runOps s ops).users = (runOps s (ops.filter isAddUser)).users ∧
    (runOps s ops).userIdCounter = (runOps s (ops.filter isAddUser)).userIdCounter ∧
    (runOps s ops).devices = (runOps s (ops.filter isAddDevice)).devices ∧
    (runOps s ops).deviceIdCounter =
      (runOps s (ops.filter isAddDevice)).deviceIdCounter :=
  ⟨rfl, rfl, rfl, rfl, (runOps_filter_addUser ops s).1, (runOps_filter_addUser ops s).2,
    (runOps_filter_addDevice ops s).1, (runOps_filter_addDevice ops s).2⟩

theorem menu_state (es : List Entry) (sh : Shell) (h : sh.state = .RUNNING) :
    (menu sh es).state = .TERMINATED ↔ ∃ e ∈ es, e.choice = 5 := by
  induction es generalizing sh with
  | nil => simp [menu, h]
  | cons e es ih =>
    unfold menu
    simp only [h, List.mem_cons, exists_eq_or_imp]
    by_cases h5 : e.choice = 5
    · have ht : (menuStep sh e).state = .TERMINATED := by rw [menuStep_state, if_pos h5]
      have : (menu (menuStep sh e) es).state = .TERMINATED := by
        cases es with
        | nil => simpa [menu] using ht
        | cons e1 es1 => unfold menu; simp [ht]
      simp [this, h5]
    · have hr : (menuStep sh e).state = .RUNNING := by rw [menuStep_state, if_neg h5]
      rw [ih _ hr]
      simp [h5]

/-- C13: a pass of the menu loop ends in TERMINATED exactly when the selection
is 5 and in RUNNING for every other integer; a selection outside 1..5 writes
`Invalid option, try again.` after the menu and leaves the store, collections
and counters, as it is; and a running shell is terminated by a run of entries
exactly when one of them is the selection 5. -/
theorem C13_shell_state_machine (sh : Shell) (e : Entry) (es : List Entry) :
    ((menuStep sh e).state = .TERMINATED ↔ e.choice = 5) ∧
    (e.choice ≠ 5 → (menuStep sh e).state = .RUNNING) ∧
    (e.choice < 1 ∨ 5 < e.choice →
      (menuStep sh e).out = sh.out ++ menuText ++ ["Invalid option, try again.\n".toList] ∧
      (menuStep sh e).store = sh.store) ∧
    (sh.state = .RUNNING → ((menu sh es).state = .TERMINATED ↔ ∃ e ∈ es, e.choice = 5)) := by
  refine ⟨?_, ?_, ?_, menu_state es sh⟩
  · rw [menuStep_state]
    by_cases h5 : e.choice = 5 <;> simp [h5]
  · intro h5
    rw [menuStep_state, if_neg h5]
  · intro h
    have h1 : e.choice ≠ 1 := by omega
    have h2 : e.choice ≠ 2 := by omega
    have h3 : e.choice ≠ 3 := by omega
    have h4 : e.choice ≠ 4 := by omega
    have h5 : e.choice ≠ 5 := by omega
    simp [menuStep, h1, h2, h3, h4, h5]

/-- C14: with no persistence files, selection 1 with `alice`, `admin` then
selection 2 shows exactly the row `ID: 1, Username: alice, Role: admin`;
selection 3 with `router1`, `10.0.0.1`, `active` then selection 4 shows exactly
one device row, with ID 1; selection 5 ends the run and the files are written;
a second run on these files shows the same alice row with ID 1 on selection 2,
and a user added in it gets id 2. -/
theorem C14_end_to_end :
    main ⟨none, none⟩
        [⟨1, "alice".toList, "admin".toList, []⟩, ⟨2, [], [], []⟩,
          ⟨3, "router1".toList, "10.0.0.1".toList, "active".toList⟩, ⟨4, [], [], []⟩,
          ⟨5, [], [], []⟩] =
      .ok (⟨⟨[⟨1, "alice".toList, "admin".toList⟩],
            [⟨1, "router1".toList, "10.0.0.1".toList, "active".toList⟩], 2, 2⟩,
          menuText ++ ["Enter username: ".toList, "Enter role: ".toList,
            "User added successfully.\n".toList] ++
          menuText ++ ["\nUsers:\n".toList, "ID: 1, Username: alice, Role: admin\n".toList] ++
          menuText ++ ["Enter device name: ".toList, "Enter IP address: ".toList,
            "Enter status (active/inactive): ".toList, "Device added successfully.\n".toList] ++
          menuText ++ ["\nDevices:\n".toList,
            "ID: 1, Name: router1, IP: 10.0.0.1, Status: active\n".toList] ++
          menuText ++ ["Exiting system...\n".toList],
          .TERMINATED⟩,
        ⟨some "1,alice,admin\n".toList, some "1,router1,10.0.0.1,active\n".toList⟩) ∧
    main ⟨some "1,alice,admin\n".toList, some "1,router1,10.0.0.1,active\n".toList⟩
        [⟨2, [], [], []⟩, ⟨1, "bob".toList, "analyst".toList, []⟩, ⟨2, [], [], []⟩,
          ⟨5, [], [], []⟩] =
      .ok (⟨⟨[⟨1, "alice".toList, "admin".toList⟩, ⟨2, "bob".toList, "analyst".toList⟩],
            [⟨1, "router1".toList, "10.0.0.1".toList, "active".toList⟩], 3, 2⟩,
          menuText ++ ["\nUsers:\n".toList, "ID: 1, Username: alice, Role: admin\n".toList] ++
          menuText ++ ["Enter username: ".toList, "Enter role: ".toList,
            "User added successfully.\n".toList] ++
          menuText ++ ["\nUsers:\n".toList, "ID: 1, Username: alice, Role: admin\n".toList,
            "ID: 2, Username: bob, Role: analyst\n".toList] ++
          menuText ++ ["Exiting system...\n".toList],
          .TERMINATED⟩,
        ⟨some "1,alice,admin\n2,bob,analyst\n".toList,
          some "1,router1,10.0.0.1,active\n".toList⟩) ∧
    listUsers (addUser initial "alice".toList "admin".toList) =
      ["\nUsers:\n".toList, userRow ⟨1, "alice".toList, "admin".toList⟩ ++ ['\n']] ∧
    userRow ⟨1, "alice".toList, "admin".toList⟩ =
      "ID: 1, Username: alice, Role: admin".toList := by
  decide

/-- C15, as amended: after a load that does not fail and reads only ids below
the largest `int`, and after any sequence of calls whose adds do not take the
counter past the largest `int`, the user id counter is at least 1 and greater
than the id of every user, so the id the next `addUser` gives is not among the
ids present; the same holds for the device counter and the devices. -/
theorem C15_counter_above_ids (uf df : Option (List Char)) (s0 : CyberManagementSystem)
    (ops : List Op) (h : construct uf df = .ok s0)
    (hum : ∀ u ∈ s0.users, u.id < INT_MAX) (hdm : ∀ d ∈ s0.devices, d.id < INT_MAX)
    (hun : s0.userIdCounter + (countAddUser ops : Int) ≤ INT_MAX)
    (hdn : s0.deviceIdCounter + (countAddDevice ops : Int) ≤ INT_MAX) :
    (1 ≤ (runOps s0 ops).userIdCounter ∧
      (∀ u ∈ (runOps s0 ops).users, u.id < (runOps s0 ops).userIdCounter) ∧
      ∀ username role, ∃ u, (addUser (runOps s0 ops) username role).users =
        (runOps s0 ops).users ++ [u] ∧ u.id ∉ (runOps s0 ops).users.map User.id) ∧
    (1 ≤ (runOps s0 ops).deviceIdCounter ∧
      (∀ d ∈ (runOps s0 ops).devices, d.id < (runOps s0 ops).deviceIdCounter) ∧
      ∀ name ip status, ∃ d, (addDevice (runOps s0 ops) name ip status).devices =
        (runOps s0 ops).devices ++ [d] ∧
        d.id ∉ (runOps s0 ops).devices.map Device.id) := by
  obtain ⟨hu1, hcu, hd1, hcd, -, -⟩ := construct_ok uf df s0 h
  have eu : s0.userIdCounter = nextIdAfter 1 (s0.users.map User.id) := by
    rw [hcu]
    apply foldl_bumpCounter
    intro i hi
    obtain ⟨u, hu2, rfl⟩ := List.mem_map.1 hi
    exact ⟨(hu1 u hu2).1, hum u hu2⟩
  have ed : s0.deviceIdCounter = nextIdAfter 1 (s0.devices.map Device.id) := by
    rw [hcd]
    apply foldl_bumpCounter
    intro i hi
    obtain ⟨d, hd2, rfl⟩ := List.mem_map.1 hi
    exact ⟨(hd1 d hd2).1, hdm d hd2⟩
  have h1u : 1 ≤ s0.userIdCounter := by rw [eu]; exact le_nextIdAfter _ _
  have h1d : 1 ≤ s0.deviceIdCounter := by rw [ed]; exact le_nextIdAfter _ _
  have hIu : IsInt s0.userIdCounter := by
    unfold IsInt INT_MIN INT_MAX; unfold INT_MAX at hun; constructor <;> omega
  have hId : IsInt s0.deviceIdCounter := by
    unfold IsInt INT_MIN INT_MAX; unfold INT_MAX at hdn; constructor <;> omega
  have hcu1 : (runOps s0 ops).userIdCounter = s0.userIdCounter + (countAddUser ops : Int) := by
    rw [runOps_userIdCounter ops s0 hIu]
    apply wrapInt_of_isInt
    unfold IsInt INT_MIN INT_MAX; unfold INT_MAX at hun; constructor <;> omega
  have hcd1 : (runOps s0 ops).deviceIdCounter =
      s0.deviceIdCounter + (countAddDevice ops : Int) := by
    rw [runOps_deviceIdCounter ops s0 hId]
    apply wrapInt_of_isInt
    unfold IsInt INT_MIN INT_MAX; unfold INT_MAX at hdn; constructor <;> omega
  have hidsu := runOps_user_ids ops s0 hIu.1 (by omega)
  have hidsd := runOps_device_ids ops s0 hId.1 (by omega)
  have hltu : ∀ i ∈ (runOps s0 ops).users.map User.id, i < (runOps s0 ops).userIdCounter := by
    intro i hi
    rw [hidsu] at hi
    rw [hcu1]
    rcases List.mem_append.1 hi with h0 | h0
    · have := lt_nextIdAfter _ 1 _ h0
      rw [← eu] at this
      omega
    · obtain ⟨k, hk, rfl⟩ := List.mem_map.1 h0
      have := List.mem_range.1 hk
      omega
  have hltd : ∀ i ∈ (runOps s0 ops).devices.map Device.id,
      i < (runOps s0 ops).deviceIdCounter := by
    intro i hi
    rw [hidsd] at hi
    rw [hcd1]
    rcases List.mem_append.1 hi with h0 | h0
    · have := lt_nextIdAfter _ 1 _ h0
      rw [← ed] at this
      omega
    · obtain ⟨k, hk, rfl⟩ := List.mem_map.1 h0
      have := List.mem_range.1 hk
      omega
  refine ⟨⟨by rw [hcu1]; omega, fun u hu => hltu _ (List.mem_map.2 ⟨u, hu, rfl⟩), ?_⟩,
    ⟨by rw [hcd1]; omega, fun d hd => hltd _ (List.mem_map.2 ⟨d, hd, rfl⟩), ?_⟩⟩
  · intro a b
    refine ⟨⟨(runOps s0 ops).userIdCounter, a, b⟩, rfl, fun hmem => ?_⟩
    exact lt_irrefl _ (hltu _ hmem)
  · intro a b c
    refine ⟨⟨(runOps s0 ops).deviceIdCounter, a, b, c⟩, rfl, fun hmem => ?_⟩
    exact lt_irrefl _ (hltd _ hmem)

/-- C15 at a concrete run: ids 5 and 1 loaded, then two users and a device added. -/
theorem C15_counter_above_ids_witness :
    (1 ≤ (runOps ⟨[⟨5, "eve".toList, "analyst".toList⟩, ⟨1, "bob".toList, "admin".toList⟩],
        [], 6, 1⟩ [Op.addUser [] [], Op.addDevice [] [] [], Op.addUser [] []]).userIdCounter ∧
      (runOps ⟨[⟨5, "eve".toList, "analyst".toList⟩, ⟨1, "bob".toList, "admin".toList⟩],
        [], 6, 1⟩ [Op.addUser [] [], Op.addDevice [] [] [], Op.addUser [] []]).userIdCounter
        = 8) ∧
    construct (some "5,eve,analyst\n1,bob,admin\n".toList) none =
      .ok ⟨[⟨5, "eve".toList, "analyst".toList⟩, ⟨1, "bob".toList, "admin".toList⟩], [], 6, 1⟩ :=
  ⟨⟨(C15_counter_above_ids (some "5,eve,analyst\n1,bob,admin\n".toList) none
      ⟨[⟨5, "eve".toList, "analyst".toList⟩, ⟨1, "bob".toList, "admin".toList⟩], [], 6, 1⟩
      [Op.addUser [] [], Op.addDevice [] [] [], Op.addUser [] []]
      (by decide) (by decide) (by decide) (by decide) (by decide)).1.1, by decide⟩,
    by decide⟩

/-- C15 as stated fails: the id 2147483646 is below the largest `int` and loads;
one `addUser` later the counter is -2147483648, below 1 and below both ids; and
when the file also holds the id -2147483648, a second `addUser` gives that id
again. -/
theorem C15_counterexample :
    construct (some "2147483646,eve,analyst\n".toList) none =
      .ok ⟨[⟨2147483646, "eve".toList, "analyst".toList⟩], [], 2147483647, 1⟩ ∧
    runOps ⟨[⟨2147483646, "eve".toList, "analyst".toList⟩], [], 2147483647, 1⟩
        [Op.addUser [] []] =
      ⟨[⟨2147483646, "eve".toList, "analyst".toList⟩, ⟨2147483647, [], []⟩], [],
        -2147483648, 1⟩ ∧
    construct (some "-2147483648,bob,admin\n2147483646,eve,analyst\n".toList) none =
      .ok ⟨[⟨-2147483648, "bob".toList, "admin".toList⟩,
        ⟨2147483646, "eve".toList, "analyst".toList⟩], [], 2147483647, 1⟩ ∧
    (runOps ⟨[⟨-2147483648, "bob".toList, "admin".toList⟩,
        ⟨2147483646, "eve".toList, "analyst".toList⟩], [], 2147483647, 1⟩
        [Op.addUser [] [], Op.addUser [] []]).users.map User.id =
      [-2147483648, 2147483646, 2147483647, -2147483648] := by
  decide

/-! ## The acceptance rule of the line parsers -/

theorem takeUntil_comma (l : List Char) :
    takeUntil ',' l = (beforeComma l, if ',' ∈ l then some (afterComma l) else none) := by
  induction l with
  | nil => simp [takeUntil, beforeComma, afterComma]
  | cons c cs ih =>
    by_cases hc : c = ','
    · subst hc
      simp [takeUntil, beforeComma, afterComma, List.takeWhile, List.dropWhile]
    · have hne : (c != ',') = true := by simpa using hc
      have hmem : (',' ∈ c :: cs) ↔ (',' ∈ cs) := by
        simp [List.mem_cons, Ne.symm hc]
      simp only [takeUntil, hc, if_false, ih, beforeComma, afterComma, List.takeWhile,
        List.dropWhile, hne, hmem]

theorem afterComma_subset (l : List Char) (c : Char) (h : c ∈ afterComma l) : c ∈ l := by
  unfold afterComma at h
  exact (List.dropWhile_sublist _).subset (List.mem_of_mem_drop h)

theorem count_comma (l : List Char) :
    l.count ',' = if ',' ∈ l then (afterComma l).count ',' + 1 else 0 := by
  induction l with
  | nil => simp
  | cons c cs ih =>
    by_cases hc : c = ','
    · subst hc
      simp [afterComma, List.dropWhile]
    · have hne : (c != ',') = true := by simpa using hc
      have hmem : (',' ∈ c :: cs) ↔ (',' ∈ cs) := by
        simp [List.mem_cons, Ne.symm hc]
      have hcnt : (c :: cs).count ',' = cs.count ',' := by
        rw [List.count_cons]
        simp [hc]
      have haf : afterComma (c :: cs) = afterComma cs := by
        simp [afterComma, List.dropWhile, hne]
      rw [hcnt, ih, haf]
      simp only [hmem]

theorem two_le_count_comma (l : List Char) :
    2 ≤ l.count ',' ↔ ',' ∈ l ∧ ',' ∈ afterComma l := by
  rw [count_comma l]
  by_cases h1 : ',' ∈ l
  · rw [if_pos h1, count_comma (afterComma l)]
    by_cases h2 : ',' ∈ afterComma l
    · simp [h1, h2]
    · simp [h1, h2]
  · simp [h1]

theorem three_le_count_comma (l : List Char) :
    3 ≤ l.count ',' ↔ ',' ∈ l ∧ ',' ∈ afterComma l ∧ ',' ∈ afterComma (afterComma l) := by
  rw [count_comma l]
  by_cases h1 : ',' ∈ l
  · rw [if_pos h1]
    have := two_le_count_comma (afterComma l)
    constructor
    · intro h
      exact ⟨h1, this.1 (by omega)⟩
    · intro h
      have := this.2 h.2
      omega
  · simp [h1]

theorem splitUserLine_rule (line : List Char) (hline : '\n' ∉ line) :
    splitUserLine line =
      if 2 ≤ line.count ',' ∧ afterComma (afterComma line) ≠ [] then
        some (beforeComma line, beforeComma (afterComma line), afterComma (afterComma line))
      else none := by
  have hn : '\n' ∉ afterComma (afterComma line) := fun h =>
    hline (afterComma_subset _ _ (afterComma_subset _ _ h))
  have hc := two_le_count_comma line
  rw [splitUserLine_eq, takeUntil_comma line]
  by_cases h1 : ',' ∈ line
  · simp only [h1, if_true]
    rw [takeUntil_comma (afterComma line)]
    by_cases h2 : ',' ∈ afterComma line
    · simp only [h2, if_true]
      rw [takeUntil_no_delim _ _ hn]
      have h2c : 2 ≤ line.count ',' := hc.2 ⟨h1, h2⟩
      by_cases h3 : afterComma (afterComma line) = [] <;> simp [h3, h2c]
    · have h2c : ¬ 2 ≤ line.count ',' := fun h => h2 (hc.1 h).2
      simp [h2, h2c]
  · have h2c : ¬ 2 ≤ line.count ',' := fun h => h1 (hc.1 h).1
    simp [h1, h2c]

theorem splitDeviceLine_rule (line : List Char) (hline : '\n' ∉ line) :
    splitDeviceLine line =
      if 3 ≤ line.count ',' ∧ afterComma (afterComma (afterComma line)) ≠ [] then
        some (beforeComma line, beforeComma (afterComma line),
          beforeComma (afterComma (afterComma line)),
          afterComma (afterComma (afterComma line)))
      else none := by
  have hn : '\n' ∉ afterComma (afterComma (afterComma line)) := fun h =>
    hline (afterComma_subset _ _ (afterComma_subset _ _ (afterComma_subset _ _ h)))
  have hc := three_le_count_comma line
  rw [splitDeviceLine_eq, takeUntil_comma line]
  by_cases h1 : ',' ∈ line
  · simp only [h1, if_true]
    rw [takeUntil_comma (afterComma line)]
    by_cases h2 : ',' ∈ afterComma line
    · simp only [h2, if_true]
      rw [takeUntil_comma (afterComma (afterComma line))]
      by_cases h3 : ',' ∈ afterComma (afterComma line)
      · simp only [h3, if_true]
        rw [takeUntil_no_delim _ _ hn]
        have h3c : 3 ≤ line.count ',' := hc.2 ⟨h1, h2, h3⟩
        by_cases h4 : afterComma (afterComma (afterComma line)) = [] <;> simp [h4, h3c]
      · have h3c : ¬ 3 ≤ line.count ',' := fun h => h3 (hc.1 h).2.2
        simp [h3, h3c]
    · have h3c : ¬ 3 ≤ line.count ',' := fun h => h2 (hc.1 h).2.1
      simp [h2, h3c]
  · have h3c : ¬ 3 ≤ line.count ',' := fun h => h1 (hc.1 h).1
    simp [h1, h3c]

/-- C16: on a line of the users file, the loop body appends a record exactly
when the line has at least two commas and the text after the second comma is
not empty (and `std::stoi` reads the id field, the text before the first comma;
otherwise it throws); the username is then the text between the first two
commas and the role everything after the second comma, further commas
included.  So a line with more than three fields passes the field check, and a
line with nothing after the second comma is skipped.  `loadDevices` follows the
same rule with three commas and the status as the remainder. -/
theorem C16_acceptance_rule (s : CyberManagementSystem) (line : List Char)
    (hline : '\n' ∉ line) :
    (loadUserLine s line =
      if 2 ≤ line.count ',' ∧ afterComma (afterComma line) ≠ [] then
        match stoi (beforeComma line) with
        | .error e => .error e
        | .ok id =>
          .ok ⟨s.users ++
              [⟨id, beforeComma (afterComma line), afterComma (afterComma line)⟩],
            s.devices, bumpCounter s.userIdCounter id, s.deviceIdCounter⟩
      else .ok s) ∧
    (loadDeviceLine s line =
      if 3 ≤ line.count ',' ∧ afterComma (afterComma (afterComma line)) ≠ [] then
        match stoi (beforeComma line) with
        | .error e => .error e
        | .ok id =>
          .ok ⟨s.users, s.devices ++
              [⟨id, beforeComma (afterComma line), beforeComma (afterComma (afterComma line)),
                afterComma (afterComma (afterComma line))⟩],
            s.userIdCounter, bumpCounter s.deviceIdCounter id⟩
      else .ok s) ∧
    (3 ≤ line.count ',' →
      splitUserLine line = some (beforeComma line, beforeComma (afterComma line),
        afterComma (afterComma line)) ∧ ',' ∈ afterComma (afterComma line)) ∧
    (afterComma (afterComma line) = [] → loadUserLine s line = .ok s) ∧
    (4 ≤ line.count ',' →
      splitDeviceLine line = some (beforeComma line, beforeComma (afterComma line),
        beforeComma (afterComma (afterComma line)),
        afterComma (afterComma (afterComma line))) ∧
      ',' ∈ afterComma (afterComma (afterComma line))) ∧
    (afterComma (afterComma (afterComma line)) = [] → loadDeviceLine s line = .ok s) := by
  have hu := splitUserLine_rule line hline
  have hd := splitDeviceLine_rule line hline
  refine ⟨?_, ?_, ?_, ?_, ?_, ?_⟩
  · unfold loadUserLine
    rw [hu]
    by_cases hc : 2 ≤ line.count ',' ∧ afterComma (afterComma line) ≠ []
    · simp only [hc, and_self, if_true, ne_eq, not_false_eq_true]
      cases stoi (beforeComma line) <;> rfl
    · simp only [hc, if_false]
  · unfold loadDeviceLine
    rw [hd]
    by_cases hc : 3 ≤ line.count ',' ∧ afterComma (afterComma (afterComma line)) ≠ []
    · simp only [hc, and_self, if_true, ne_eq, not_false_eq_true]
      cases stoi (beforeComma line) <;> rfl
    · simp only [hc, if_false]
  · intro h3
    have hm := ((three_le_count_comma line).1 h3).2.2
    have hne : afterComma (afterComma line) ≠ [] := List.ne_nil_of_mem hm
    have h2 : 2 ≤ line.count ',' := by omega
    rw [hu]
    simp [h2, hne, hm]
  · intro he
    unfold loadUserLine
    rw [hu]
    simp [he]
  · intro h4
    have hcnt := count_comma line
    have h1 : ',' ∈ line := by
      by_contra hn
      rw [if_neg hn] at hcnt
      omega
    rw [if_pos h1] at hcnt
    have hm := ((three_le_count_comma (afterComma line)).1 (by omega)).2.2
    have hne : afterComma (afterComma (afterComma line)) ≠ [] := List.ne_nil_of_mem hm
    have h3 : 3 ≤ line.count ',' := by omega
    rw [hd]
    simp [h3, hne, hm]
  · intro he
    unfold loadDeviceLine
    rw [hd]
    simp [he]

/-- C16 at a concrete line with four fields: the role keeps the third comma. -/
theorem C16_acceptance_rule_witness :
    loadUserLine initial "7,bob,admin,ops".toList =
      .ok ⟨[⟨7, "bob".toList, "admin,ops".toList⟩], [], 8, 1⟩ ∧
    loadUserLine initial "7,bob,".toList = .ok initial ∧
    loadUserLine initial "7,,x".toList = .ok ⟨[⟨7, [], "x".toList⟩], [], 8, 1⟩ :=
  ⟨(C16_acceptance_rule initial "7,bob,admin,ops".toList (by decide)).1.trans (by decide),
    (C16_acceptance_rule initial "7,bob,".toList (by decide)).2.2.2.1 (by decide),
    by decide⟩

/-! ## Reloading what was loaded -/

theorem beforeComma_subset (l : List Char) (c : Char) (h : c ∈ beforeComma l) : c ∈ l := by
  unfold beforeComma at h
  exact (List.takeWhile_sublist _).subset h

theorem splitUserLine_clean (line i a b : List Char) (hline : '\n' ∉ line)
    (h : splitUserLine line = some (i, a, b)) : '\n' ∉ a ∧ b ≠ [] ∧ '\n' ∉ b := by
  rw [splitUserLine_rule line hline] at h
  split_ifs at h with hc
  simp only [Option.some.injEq, Prod.mk.injEq] at h
  obtain ⟨-, rfl, rfl⟩ := h
  exact ⟨fun hm => hline (afterComma_subset _ _ (beforeComma_subset _ _ hm)), hc.2,
    fun hm => hline (afterComma_subset _ _ (afterComma_subset _ _ hm))⟩

theorem splitDeviceLine_clean (line i a b c : List Char) (hline : '\n' ∉ line)
    (h : splitDeviceLine line = some (i, a, b, c)) :
    '\n' ∉ a ∧ '\n' ∉ b ∧ c ≠ [] ∧ '\n' ∉ c := by
  rw [splitDeviceLine_rule line hline] at h
  split_ifs at h with hc
  simp only [Option.some.injEq, Prod.mk.injEq] at h
  obtain ⟨-, rfl, rfl, rfl⟩ := h
  exact ⟨fun hm => hline (afterComma_subset _ _ (beforeComma_subset _ _ hm)),
    fun hm => hline (afterComma_subset _ _ (afterComma_subset _ _ (beforeComma_subset _ _ hm))),
    hc.2,
    fun hm => hline (afterComma_subset _ _ (afterComma_subset _ _ (afterComma_subset _ _ hm)))⟩

/-- A load of the users file that does not throw, in full: the store it leaves
and the shape of the records it read. -/
theorem loadLoop_users_shape (lines : List (List Char)) (s s1 : CyberManagementSystem)
    (hnl : ∀ l ∈ lines, '\n' ∉ l) (h : loadLoop loadUserLine s lines = .ok s1) :
    ∃ new, s1 = ⟨s.users ++ new, s.devices,
        (new.map User.id).foldl bumpCounter s.userIdCounter, s.deviceIdCounter⟩ ∧
      ∀ u ∈ new, IsInt u.id ∧ ',' ∉ u.username ∧ '\n' ∉ u.username ∧ u.role ≠ [] ∧
        '\n' ∉ u.role := by
  induction lines generalizing s with
  | nil =>
    simp only [loadLoop, Except.ok.injEq] at h
    subst h
    exact ⟨[], by simp, by simp⟩
  | cons line lines ih =>
    simp only [loadLoop] at h
    rcases hb : loadUserLine s line with e | s2
    · simp [hb] at h
    · simp only [hb] at h
      obtain ⟨new, hn1, hn2⟩ := ih s2 (fun l hl => hnl l (by simp [hl])) h
      obtain ⟨f1, f2, hcase⟩ := loadUserLine_ok s s2 line hb
      rcases hcase with ⟨-, rfl⟩ | ⟨i, a, b, id, hsp, hst, hu, hc⟩
      · exact ⟨new, hn1, hn2⟩
      · refine ⟨⟨id, a, b⟩ :: new, ?_, ?_⟩
        · rw [hn1, hu, hc, f1, f2]
          simp
        · intro u hu1
          rcases List.mem_cons.1 hu1 with rfl | hu2
          · obtain ⟨c1, c2, c3⟩ := splitUserLine_clean line i a b (hnl line (by simp)) hsp
            exact ⟨stoi_isInt _ _ hst, (splitUserLine_comma _ _ _ _ hsp).2.1, c1, c2, c3⟩
          · exact hn2 u hu2

theorem loadLoop_devices_shape (lines : List (List Char)) (s s1 : CyberManagementSystem)
    (hnl : ∀ l ∈ lines, '\n' ∉ l) (h : loadLoop loadDeviceLine s lines = .ok s1) :
    ∃ new, s1 = ⟨s.users, s.devices ++ new, s.userIdCounter,
        (new.map Device.id).foldl bumpCounter s.deviceIdCounter⟩ ∧
      ∀ d ∈ new, IsInt d.id ∧ ',' ∉ d.name ∧ '\n' ∉ d.name ∧ ',' ∉ d.ip ∧ '\n' ∉ d.ip ∧
        d.status ≠ [] ∧ '\n' ∉ d.status := by
  induction lines generalizing s with
  | nil =>
    simp only [loadLoop, Except.ok.injEq] at h
    subst h
    exact ⟨[], by simp, by simp⟩
  | cons line lines ih =>
    simp only [loadLoop] at h
    rcases hb : loadDeviceLine s line with e | s2
    · simp [hb] at h
    · simp only [hb] at h
      obtain ⟨new, hn1, hn2⟩ := ih s2 (fun l hl => hnl l (by simp [hl])) h
      obtain ⟨f1, f2, hcase⟩ := loadDeviceLine_ok s s2 line hb
      rcases hcase with ⟨-, rfl⟩ | ⟨i, a, b, c, id, hsp, hst, hu, hc⟩
      · exact ⟨new, hn1, hn2⟩
      · refine ⟨⟨id, a, b, c⟩ :: new, ?_, ?_⟩
        · rw [hn1, hu, hc, f1, f2]
          simp
        · intro d hd1
          rcases List.mem_cons.1 hd1 with rfl | hd2
          · obtain ⟨c1, c2, c3, c4⟩ :=
              splitDeviceLine_clean line i a b c (hnl line (by simp)) hsp
            have hcm := splitDeviceLine_comma _ _ _ _ _ hsp
            exact ⟨stoi_isInt _ _ hst, hcm.2.1, c1, hcm.2.2.1, c2, c3, c4⟩
          · exact hn2 d hd2

/-- Loading the lines written for a list of storable users, in full. -/
theorem loadLoop_userLines_full (us : List User) (s : CyberManagementSystem)
    (h : ∀ u ∈ us, IsInt u.id ∧ ',' ∉ u.username ∧ u.role ≠ [] ∧ '\n' ∉ u.role) :
    loadLoop loadUserLine s (us.map userLine) =
      .ok ⟨s.users ++ us, s.devices, (us.map User.id).foldl bumpCounter s.userIdCounter,
        s.deviceIdCounter⟩ := by
  induction us generalizing s with
  | nil => simp [loadLoop]
  | cons u us ih =>
    simp only [List.map_cons, loadLoop, loadUserLine_userLine s u (h u (by simp))]
    rw [ih _ (fun v hv => h v (by simp [hv]))]
    simp [bumpCounter]

theorem loadLoop_deviceLines_full (ds : List Device) (s : CyberManagementSystem)
    (h : ∀ d ∈ ds, IsInt d.id ∧ ',' ∉ d.name ∧ ',' ∉ d.ip ∧ d.status ≠ [] ∧ '\n' ∉ d.status) :
    loadLoop loadDeviceLine s (ds.map deviceLine) =
      .ok ⟨s.users, s.devices ++ ds, s.userIdCounter,
        (ds.map Device.id).foldl bumpCounter s.deviceIdCounter⟩ := by
  induction ds generalizing s with
  | nil => simp [loadLoop]
  | cons d ds ih =>
    simp only [List.map_cons, loadLoop, loadDeviceLine_deviceLine s d (h d (by simp))]
    rw [ih _ (fun v hv => h v (by simp [hv]))]
    simp [bumpCounter]

/-- C17: when `loadUsers` succeeds on a file, saving the store it leaves and
loading the saved file into a fresh store gives that same store again: the same
records in the same order and the same id counter; likewise for `loadDevices`,
and for the constructor on both files at once.  The saved file itself can
differ from the file first loaded. -/
theorem C17_reload_stable (uf df : List Char) (su sd s : CyberManagementSystem)
    (pu pd : Option (List Char))
    (hu : loadUsers (some uf) initial = .ok su)
    (hd : loadDevices (some df) initial = .ok sd)
    (hs : construct (some uf) (some df) = .ok s) :
    loadUsers (some (saveUsers su pu)) initial = .ok su ∧
    loadDevices (some (saveDevices sd pd)) initial = .ok sd ∧
    construct (some (saveUsers s pu)) (some (saveDevices s pd)) = .ok s ∧
    ∃ f t, loadUsers (some f) initial = .ok t ∧ saveUsers t none ≠ f := by
  have key_u : ∀ t, loadUsers (some uf) initial = .ok t →
      ∀ p, loadUsers (some (saveUsers t p)) initial = .ok t := by
    intro t ht p
    obtain ⟨new, h1, h2⟩ := loadLoop_users_shape _ _ _ (fileLines_no_newline uf) ht
    have hus : t.users = new := by rw [h1]; simp [initial]
    simp only [loadUsers]
    rw [fileLines_saveUsers t p (fun u hu1 => by
        rw [hus] at hu1
        exact ⟨(h2 u hu1).2.2.1, (h2 u hu1).2.2.2.2⟩),
      loadLoop_userLines_full t.users initial (fun u hu1 => by
        rw [hus] at hu1
        exact ⟨(h2 u hu1).1, (h2 u hu1).2.1, (h2 u hu1).2.2.2.1, (h2 u hu1).2.2.2.2⟩)]
    rw [hus]
    rw [h1]
  have key_d : ∀ s0 t, loadDevices (some df) s0 = .ok t → s0.devices = [] →
      ∀ p, loadDevices (some (saveDevices t p)) s0 = .ok t := by
    intro s0 t ht h0 p
    obtain ⟨new, h1, h2⟩ := loadLoop_devices_shape _ _ _ (fileLines_no_newline df) ht
    have hds : t.devices = new := by rw [h1]; simp [h0]
    simp only [loadDevices]
    rw [fileLines_saveDevices t p (fun d hd1 => by
        rw [hds] at hd1
        exact ⟨(h2 d hd1).2.2.1, (h2 d hd1).2.2.2.2.1, (h2 d hd1).2.2.2.2.2.2⟩),
      loadLoop_deviceLines_full t.devices s0 (fun d hd1 => by
        rw [hds] at hd1
        exact ⟨(h2 d hd1).1, (h2 d hd1).2.1, (h2 d hd1).2.2.2.1, (h2 d hd1).2.2.2.2.2.1,
          (h2 d hd1).2.2.2.2.2.2⟩)]
    rw [hds]
    rw [h1]
  refine ⟨key_u su hu pu, key_d initial sd hd rfl pd, ?_, ?_⟩
  · unfold construct at hs ⊢
    rcases hl : loadUsers (some uf) initial with e | s0
    · simp [hl] at hs
    · simp only [hl] at hs
      obtain ⟨new, h1, -⟩ := loadLoop_users_shape _ _ _ (fileLines_no_newline uf) hl
      obtain ⟨newd, h3, -⟩ := loadLoop_devices_shape _ _ _ (fileLines_no_newline df) hs
      have h0 : s0.devices = [] := by rw [h1]; rfl
      have e1 : saveUsers s pu = saveUsers s0 pu := by
        simp only [saveUsers]
        rw [h3]
      rw [e1, key_u s0 hl pu]
      exact key_d s0 s hs h0 pd
  · exact ⟨" 7,bob,admin\n".toList, ⟨[⟨7, "bob".toList, "admin".toList⟩], [], 8, 1⟩,
      by decide, by decide⟩

/-- C17 at concrete files: a users file with a padded id, a four-field line and
a short line, and a devices file with one record. -/
theorem C17_reload_stable_witness :
    loadUsers (some " 7,bob,admin,ops\nshort\n".toList) initial =
      .ok ⟨[⟨7, "bob".toList, "admin,ops".toList⟩], [], 8, 1⟩ ∧
    saveUsers ⟨[⟨7, "bob".toList, "admin,ops".toList⟩], [], 8, 1⟩ none =
      "7,bob,admin,ops\n".toList ∧
    loadUsers (some (saveUsers ⟨[⟨7, "bob".toList, "admin,ops".toList⟩], [], 8, 1⟩ none))
      initial = .ok ⟨[⟨7, "bob".toList, "admin,ops".toList⟩], [], 8, 1⟩ :=
  ⟨by decide, by decide,
    (C17_reload_stable " 7,bob,admin,ops\nshort\n".toList "3,r1,10.0.0.1,up\n".toList
      ⟨[⟨7, "bob".toList, "admin,ops".toList⟩], [], 8, 1⟩
      ⟨[], [⟨3, "r1".toList, "10.0.0.1".toList, "up".toList⟩], 1, 4⟩
      ⟨[⟨7, "bob".toList, "admin,ops".toList⟩],
        [⟨3, "r1".toList, "10.0.0.1".toList, "up".toList⟩], 8, 4⟩
      none none (by decide) (by decide) (by decide)).1⟩

end CMS
